import Mathlib

/-!
Verification development for the ts-morph-based TypeScript static-analysis
MCP server (modules `utils.ts`, `analyzer.ts`, `tools.ts`, `cache.ts`).

The program is embedded shallowly:

* TypeScript AST nodes (as surfaced by ts-morph) are modelled by `TsNode`,
  a rose tree whose `SynKind` mirrors the `SyntaxKind` cases the analysed
  code dispatches on.  Data that ts-morph computes from the compiler
  (symbol names, type texts, JSDoc tags, source positions) is carried on
  each node in `NodeData`, since the parser/type-checker is an external
  capability of the program, not part of it.
* Pure functions (`getNodeComplexity`, `extractSymbolInfo`,
  `analyzeSourceFile`, `detectComplexitySmells`, `getReferenceKind`,
  `getTypeHierarchy`, `generateCacheKey`, ...) are translated directly
  into Lean functions over this model.
* Stateful pieces (the analysis cache, tool pipelines with file reads)
  are modelled by explicit state passing; fallible code returns
  `Except AnalysisError` / `Option`.
-/

/-- The `ts-morph` `SyntaxKind` cases the analysed modules dispatch on.
`binaryExpression` carries its operator token (ts-morph exposes it via
`getOperatorToken`); every other kind the code inspects is a plain tag.
Kinds the code never branches on are collapsed into `otherKind`. -/
inductive SynKind where
  | sourceFileKind
  | ifStatement
  | forStatement
  | forInStatement
  | forOfStatement
  | whileStatement
  | doStatement
  | conditionalExpression
  | catchClause
  | caseClause
  | binaryExpression (op : String)
  | callExpression
  | importSpecifier
  | importDeclaration
  | variableStatement
  | variableDeclaration
  | functionDeclaration
  | functionExpression
  | arrowFunction
  | methodDeclaration
  | methodSignature
  | classDeclaration
  | interfaceDeclaration
  | enumDeclaration
  | propertyDeclaration
  | propertySignature
  | typeAliasDeclaration
  | moduleDeclaration
  | namespaceKeyword
  | parameter
  | constructorDeclaration
  | getAccessor
  | setAccessor
  | exportDeclaration
  | identifier
  | block
  | returnStatement
  | awaitExpression
  | propertyAccessExpression
  | thisKeyword
  | numericLiteral
  | otherKind (tag : String)
  deriving DecidableEq

/-- Modifier keywords checked through `hasModifier`. -/
inductive TsModifier where
  | publicMod
  | privateMod
  | protectedMod
  | staticMod
  | asyncMod
  | readonlyMod
  | abstractMod
  deriving DecidableEq

/-- A line/character pair, 0-based, as in `types.ts` `Position`. -/
structure TsPosition where
  line : Nat
  character : Nat
  deriving DecidableEq

/-- Source `types.ts` `Location`: file path, start and end positions (0-based,
computed by `nodeToLocation` from ts-morph's 1-based line/column). -/
structure TsLocation where
  file : String
  position : TsPosition
  endPosition : TsPosition
  deriving DecidableEq

/-- Facts ts-morph computes about a node from the parse/type model:
symbol name (`node.getSymbol()?.getName()`), the node's own name
(`node.getName()` where applicable), type text (`node.getType().getText()`),
the type's symbol name (`getType().getSymbol()?.getName()`), JSDoc tags as
(tagName, tagText) pairs, raw 1-based start/end line and column, character
offsets (`getStart()`/`getEnd()`), the node's source text, the file path,
and an identifier of the node's type in the project's type graph. -/
structure NodeData where
  symbolName : Option String := none
  ownName : Option String := none
  typeText : String := ""
  typeSymbolName : Option String := none
  jsDocTags : List (String × String) := []
  startLine : Nat := 1
  startColumn : Nat := 1
  endLine : Nat := 1
  endColumn : Nat := 1
  startOffset : Nat := 0
  endOffset : Nat := 0
  text : String := ""
  filePath : String := ""
  typeId : Nat := 0
  heritageExtendsTexts : List (String × TsLocation) := []
  heritageImplementsTexts : List (String × TsLocation) := []
  heritageClauseTexts : List String := []
  jsDocTexts : List String := []
  moduleSpecifier : String := ""
  namedImports : List String := []
  defaultImport : Option String := none
  namespaceImport : Option String := none
  isTypeOnly : Bool := false
  namedExports : List String := []
  exportedDeclarationNames : List String := []
  diagnosticMessages : List String := []
  lineStartOffsets : List Nat := []
  returnTypeText : String := ""
  leadingCommentTexts : List String := []
  exportedDeclSignatures : List String := []
  deriving DecidableEq

/-- A ts-morph AST node: kind, computed data, modifier list, children. -/
inductive TsNode where
  | node (kind : SynKind) (data : NodeData) (modifiers : List TsModifier) (children : List TsNode)

/-- Kind of a node. -/
def TsNode.kind : TsNode → SynKind
  | .node k _ _ _ => k

/-- Computed data of a node. -/
def TsNode.data : TsNode → NodeData
  | .node _ d _ _ => d

/-- Modifier list of a node. -/
def TsNode.modifiers : TsNode → List TsModifier
  | .node _ _ m _ => m

/-- Children of a node. -/
def TsNode.children : TsNode → List TsNode
  | .node _ _ _ cs => cs

/-- Source `node.hasModifier(kind)`. -/
def TsNode.hasModifier (n : TsNode) (m : TsModifier) : Bool :=
  n.modifiers.contains m

/-- JavaScript `String.prototype.startsWith` (also Node's
`String.startsWith` used on paths), as a computable prefix test. -/
def strStartsWith (s pre : String) : Bool :=
  go pre.toList s.toList
where
  go : List Char → List Char → Bool
    | [], _ => true
    | _ :: _, [] => false
    | p :: ps, c :: cs => p == c && go ps cs

mutual

/-- All proper descendants of a node in document (pre-)order: the nodes
visited by ts-morph's `node.forEachDescendant`. -/
def descendants : TsNode → List TsNode
  | .node _ _ _ cs => descendantsList cs

/-- Descendant enumeration of a forest of siblings. -/
def descendantsList : List TsNode → List TsNode
  | [] => []
  | c :: cs => c :: (descendants c ++ descendantsList cs)

end

mutual

/-- Proper descendants of a node paired with their ancestor chain (chain
`anc` is the chain of the node itself), nearest ancestor first. -/
def descAncNode : TsNode → List TsNode → List (TsNode × List TsNode)
  | .node _ _ _ cs, anc => descAncList cs anc

/-- Descendant/ancestor enumeration of a forest of siblings whose common
ancestor chain is `anc`. -/
def descAncList : List TsNode → List TsNode → List (TsNode × List TsNode)
  | [], _ => []
  | c :: cs, anc => (c, anc) :: (descAncNode c (c :: anc) ++ descAncList cs anc)

end

/-- All proper descendants of a node paired with their ancestor chain,
nearest ancestor first (so `.head?` of the chain is `getParent()`).  Used
for the detectors that inspect `getParent()` chains. -/
def descendantsAnc (n : TsNode) : List (TsNode × List TsNode) :=
  descAncNode n [n]

/-- Source `utils.ts` `getNodeComplexity`: the syntax kinds whose descendants
increment the cyclomatic-complexity counter.  Note that the source tests
`kind === SyntaxKind.BinaryExpression`, which holds for every binary
operator, logical or not. -/
def isComplexityKind : SynKind → Bool
  | .ifStatement => true
  | .forStatement => true
  | .forInStatement => true
  | .forOfStatement => true
  | .whileStatement => true
  | .doStatement => true
  | .conditionalExpression => true
  | .catchClause => true
  | .caseClause => true
  | .binaryExpression _ => true
  | _ => false

/-- Source `utils.ts` `getNodeComplexity`: starts at 1 and increments for every
descendant whose kind is one of the listed branching kinds. -/
def getNodeComplexity (n : TsNode) : Nat :=
  1 + (descendants n).countP (fun c => isComplexityKind c.kind)

/-- Source `types.ts` `SymbolKind`. -/
inductive SymbolKindT where
  | classKind
  | interfaceKind
  | enumKind
  | functionKind
  | methodKind
  | propertyKind
  | variableKind
  | parameterKind
  | typeKind
  | namespaceKind
  | moduleKind
  deriving DecidableEq

/-- Source `utils.ts` `getSymbolKind`: maps a node's syntax kind to a
`SymbolKind`, defaulting to `variable`. -/
def getSymbolKind (n : TsNode) : SymbolKindT :=
  match n.kind with
  | .classDeclaration => .classKind
  | .interfaceDeclaration => .interfaceKind
  | .enumDeclaration => .enumKind
  | .functionDeclaration => .functionKind
  | .functionExpression => .functionKind
  | .arrowFunction => .functionKind
  | .methodDeclaration => .methodKind
  | .methodSignature => .methodKind
  | .propertyDeclaration => .propertyKind
  | .propertySignature => .propertyKind
  | .variableDeclaration => .variableKind
  | .parameter => .parameterKind
  | .typeAliasDeclaration => .typeKind
  | .moduleDeclaration => .moduleKind
  | .namespaceKeyword => .namespaceKind
  | _ => .variableKind

/-- Source `utils.ts` `nodeToLocation`: converts ts-morph's 1-based line/column
to the 0-based `Location`. -/
def nodeToLocation (n : TsNode) : TsLocation :=
  { file := n.data.filePath
    position := { line := n.data.startLine - 1, character := n.data.startColumn - 1 }
    endPosition := { line := n.data.endLine - 1, character := n.data.endColumn - 1 } }

/-- Source `utils.ts` `getTypeString`: type text elided beyond 100 characters. -/
def getTypeString (typeText : String) : String :=
  if typeText.length > 100 then (typeText.take 97) ++ "..." else typeText

/-- Source `types.ts` `SymbolReference`. -/
structure SymbolReference where
  name : String
  location : TsLocation
  kind : SymbolKindT
  deriving DecidableEq

/-- The `relationships` object built by `analyzer.ts` `extractRelationships`;
only `extends` and `implements` are ever populated there. -/
structure SymbolRelationships where
  extendsRefs : List SymbolReference := []
  implementsRefs : List SymbolReference := []
  deriving DecidableEq

/-- Source `types.ts` `SymbolInfo` (optional fields as `Option`). -/
structure SymbolInfo where
  name : String
  kind : SymbolKindT
  type : String
  documentation : Option String
  modifiers : Option (List String)
  location : TsLocation
  relationships : Option SymbolRelationships
  deriving DecidableEq

/-- The modifier strings pushed by `extractSymbolInfo`, in source order. -/
def modifierChecks : List (TsModifier × String) :=
  [(.publicMod, "public"), (.privateMod, "private"), (.protectedMod, "protected"),
   (.staticMod, "static"), (.asyncMod, "async"), (.readonlyMod, "readonly"),
   (.abstractMod, "abstract")]

/-- Source `analyzer.ts` `extractRelationships`: for class/interface declarations,
`extends` from the extends heritage clause type nodes, `implements` only for
classes; returns `undefined` when neither is populated. -/
def extractRelationships (n : TsNode) : Option SymbolRelationships :=
  if n.kind = .classDeclaration ∨ n.kind = .interfaceDeclaration then
    let ext := n.data.heritageExtendsTexts.map (fun p =>
      ({ name := p.1, location := p.2, kind := .classKind } : SymbolReference))
    let impl :=
      if n.kind = .classDeclaration then
        n.data.heritageImplementsTexts.map (fun p =>
          ({ name := p.1, location := p.2, kind := .interfaceKind } : SymbolReference))
      else []
    if ext = [] ∧ impl = [] then none
    else some { extendsRefs := ext, implementsRefs := impl }
  else none

/-- Source `analyzer.ts` `extractSymbolInfo`: returns `null` when the node has no
symbol, or when `includePrivate` is false and the symbol's name starts with
an underscore; otherwise assembles the `SymbolInfo` record.  The privacy
filter tests only the name, never the `private` modifier. -/
def extractSymbolInfo (n : TsNode) (includePrivate : Bool) : Option SymbolInfo :=
  match n.data.symbolName with
  | none => none
  | some name =>
    if !includePrivate && strStartsWith name "_" then none
    else
      let mods := (modifierChecks.filter (fun mc => n.hasModifier mc.1)).map (·.2)
      let docText := String.intercalate "\n" (n.data.jsDocTags.map (fun t =>
        "@" ++ t.1 ++ (if t.2 ≠ "" then " " ++ t.2 else "")))
      some
        { name := name
          kind := getSymbolKind n
          type := getTypeString n.data.typeText
          documentation := if docText = "" then none else some docText
          modifiers := if mods = [] then none else some mods
          location := nodeToLocation n
          relationships := extractRelationships n }

/-- Source `analyzer.ts` `isDeclarationNode`. -/
def isDeclarationNode (n : TsNode) : Bool :=
  match n.kind with
  | .classDeclaration => true
  | .interfaceDeclaration => true
  | .functionDeclaration => true
  | .variableDeclaration => true
  | .typeAliasDeclaration => true
  | .enumDeclaration => true
  | .methodDeclaration => true
  | .propertyDeclaration => true
  | .getAccessor => true
  | .setAccessor => true
  | _ => false

/-- Source `types.ts` `ImportInfo`. -/
structure ImportInfo where
  moduleSpecifier : String
  symbols : List String
  isTypeOnly : Bool
  location : TsLocation
  deriving DecidableEq

/-- The `analysisType` parameter of `analyze_file`. -/
inductive AnalysisType where
  | symbolsT
  | dependenciesT
  | complexityT
  | allT
  deriving DecidableEq

/-- Source `sourceFile.getImportDeclarations()`: import declarations are top-level
statements of the file. -/
def getImportDeclarations (file : TsNode) : List TsNode :=
  file.children.filter (fun c => c.kind = .importDeclaration)

/-- Source `sourceFile.getFunctions()`: the file's top-level function declarations. -/
def getFunctions (file : TsNode) : List TsNode :=
  file.children.filter (fun c => c.kind = .functionDeclaration)

/-- Source `sourceFile.getClasses()`: the file's top-level class declarations. -/
def getClasses (file : TsNode) : List TsNode :=
  file.children.filter (fun c => c.kind = .classDeclaration)

/-- Source `cls.getMethods()`: the method declarations among a class's members. -/
def getMethods (cls : TsNode) : List TsNode :=
  cls.children.filter (fun c => c.kind = .methodDeclaration)

/-- The import section of `analyzeSourceFile`: default import, then
namespace import, then named imports; the declaration contributes an
`ImportInfo` only when that list is non-empty. -/
def importDeclToInfo (imp : TsNode) : Option ImportInfo :=
  let allImports :=
    (match imp.data.defaultImport with | some d => [d] | none => []) ++
    (match imp.data.namespaceImport with | some ns => [ns] | none => []) ++
    imp.data.namedImports
  if allImports.length > 0 then
    some { moduleSpecifier := imp.data.moduleSpecifier
           symbols := allImports
           isTypeOnly := imp.data.isTypeOnly
           location := nodeToLocation imp }
  else none

/-- Result record of `analyzer.ts` `analyzeSourceFile`.  Pre-emit
diagnostics come from the external compiler; the model carries their
messages through unchanged. -/
structure FileAnalysis where
  symbols : List SymbolInfo
  diagnostics : List String
  imports : List ImportInfo
  exports : List String
  complexity : Nat
  deriving DecidableEq

/-- Source `analyzer.ts` `analyzeSourceFile`: symbol extraction over every
descendant declaration node (honouring `includePrivate`), import/export
collection, and total complexity as the sum of `getNodeComplexity` over
top-level functions and over every class's methods.  The `depth` parameter
is accepted and ignored, as in the source. -/
def analyzeSourceFile (file : TsNode) (analysisType : AnalysisType)
    (_depth : Nat) (includePrivate : Bool) : FileAnalysis :=
  let symbols :=
    if analysisType = .symbolsT ∨ analysisType = .allT then
      ((descendants file).filter isDeclarationNode).filterMap
        (fun n => extractSymbolInfo n includePrivate)
    else []
  let imports :=
    if analysisType = .dependenciesT ∨ analysisType = .allT then
      (getImportDeclarations file).filterMap importDeclToInfo
    else []
  let exports :=
    if analysisType = .dependenciesT ∨ analysisType = .allT then
      file.data.namedExports ++ file.data.exportedDeclarationNames
    else []
  let complexity :=
    if analysisType = .complexityT ∨ analysisType = .allT then
      ((getFunctions file).map getNodeComplexity).sum +
      ((getClasses file).map (fun cls => ((getMethods cls).map getNodeComplexity).sum)).sum
    else 0
  { symbols := symbols
    diagnostics := file.data.diagnosticMessages
    imports := imports
    exports := exports
    complexity := complexity }

/-- Source `utils.ts` `positionToOffset`: the compiler's line/character-to-offset
mapping, modelled through the file's line-start offset table. -/
def positionToOffset (file : TsNode) (p : TsPosition) : Nat :=
  (file.data.lineStartOffsets.getD p.line 0) + p.character

mutual

/-- Source `getDescendantAtPos` descent on one node: if the offset falls inside
the node's span, the deepest descendant containing it (or the node
itself). -/
def nodeAtPos : TsNode → Nat → Option TsNode
  | .node k d m cs, off =>
    if d.startOffset ≤ off ∧ off < d.endOffset then
      some (match listAtPos cs off with
            | some deeper => deeper
            | none => .node k d m cs)
    else none

/-- Source `getDescendantAtPos` descent on a list of siblings: the first child
whose span contains the offset wins. -/
def listAtPos : List TsNode → Nat → Option TsNode
  | [], _ => none
  | c :: cs, off =>
    match nodeAtPos c off with
    | some d => some d
    | none => listAtPos cs off

end

/-- Source `analyzer.ts` `findSymbolAtPosition`: `getDescendantAtPos` at the
offset computed from the position. -/
def findSymbolAtPosition (file : TsNode) (p : TsPosition) : Option TsNode :=
  listAtPos file.children (positionToOffset file p)

/-- Kind tags returned by `analyzer.ts` `getTypeKind`. -/
inductive TypeKindT where
  | classK
  | interfaceK
  | enumK
  | typeK
  deriving DecidableEq

/-- Source `types.ts` `TypeInfo`. -/
structure TypeInfo where
  name : String
  kind : TypeKindT
  location : TsLocation
  generics : Option (List String)
  deriving DecidableEq

/-- A declaration of a type symbol as the type checker reports it: the
declaration node's kind, location, and generic parameter names. -/
structure TypeDeclInfo where
  declKind : SynKind
  location : TsLocation
  typeParams : List String
  deriving DecidableEq

/-- The project's type model, an external capability of ts-morph:
`symbolNameOf` is `type.getSymbol()?.getName()`, `declsOf` is
`symbol.getDeclarations()`, and `baseTypesOf` is `type.getBaseTypes()`.
Nothing constrains it to be acyclic. -/
structure TypeGraph where
  symbolNameOf : Nat → Option String
  declsOf : String → List TypeDeclInfo
  baseTypesOf : Nat → List Nat

/-- Source `analyzer.ts` `getTypeKind`. -/
def getTypeKind (k : SynKind) : TypeKindT :=
  match k with
  | .classDeclaration => .classK
  | .interfaceDeclaration => .interfaceK
  | .enumDeclaration => .enumK
  | _ => .typeK

/-- Source `analyzer.ts` `getGenericParameters`: `undefined` when the declaration
has no type parameters. -/
def getGenericParameters (d : TypeDeclInfo) : Option (List String) :=
  if d.typeParams = [] then none else some d.typeParams

/-- The `direction` parameter of the type-hierarchy traversal. -/
inductive HierarchyDirection where
  | ancestorsDir
  | descendantsDir
  | bothDir
  deriving DecidableEq

/-- State of `getTypeHierarchy`'s traversal: the visited-name set and the
hierarchy list built so far. -/
structure TravState where
  visited : List String
  hierarchy : List TypeInfo

/-- The body of `analyzer.ts` `getTypeHierarchy`'s inner `processType`,
with the `depth > maxDepth` guard encoded by fuel: a call at depth `d`
carries fuel `maxDepth + 1 - d`, so fuel `0` is exactly `depth > maxDepth`.
Order is as in the source: bail on missing symbol; bail on an
already-visited name; add the name to the visited set; bail on a symbol
with no declarations; append the `TypeInfo`; recurse into base types for
`ancestors`/`both` (the `descendants` branch is an unimplemented no-op in
the source). -/
def processType (g : TypeGraph) (dir : HierarchyDirection) :
    Nat → Nat → TravState → TravState
  | 0, _, st => st
  | fuel + 1, tid, st =>
    match g.symbolNameOf tid with
    | none => st
    | some name =>
      if st.visited.contains name then st
      else
        let st₁ : TravState := { st with visited := name :: st.visited }
        match g.declsOf name with
        | [] => st₁
        | decl :: _ =>
          let info : TypeInfo :=
            { name := name
              kind := getTypeKind decl.declKind
              location := decl.location
              generics := getGenericParameters decl }
          let st₂ : TravState := { st₁ with hierarchy := st₁.hierarchy ++ [info] }
          if dir = .ancestorsDir ∨ dir = .bothDir then
            (g.baseTypesOf tid).foldl (fun s b => processType g dir fuel b s) st₂
          else st₂

/-- Source `analyzer.ts` `getTypeHierarchy`: runs `processType` on the node's
type at depth 0 (fuel `maxDepth + 1`) with empty visited set and empty
hierarchy, and returns the hierarchy list. -/
def getTypeHierarchy (g : TypeGraph) (n : TsNode) (dir : HierarchyDirection)
    (maxDepth : Nat) : List TypeInfo :=
  (processType g dir (maxDepth + 1) n.data.typeId { visited := [], hierarchy := [] }).hierarchy

/-- Source `types.ts` `CodeSmellCategory`. -/
inductive SmellCategory where
  | complexityC
  | duplicationC
  | couplingC
  | namingC
  | unusedCodeC
  | asyncIssuesC
  deriving DecidableEq

/-- Severity of a finding, ordered low < medium < high for sorting. -/
inductive Severity where
  | low
  | medium
  | high
  deriving DecidableEq

/-- A code-smell finding as pushed by the detectors in `tools.ts`. -/
structure SmellFinding where
  category : SmellCategory
  severity : Severity
  location : TsLocation
  message : String
  suggestion : Option String
  deriving DecidableEq

/-- The `threshold` parameter of `detect_code_smells` (all fields
optional). -/
structure SmellThreshold where
  complexity : Option Nat := none
  fileSize : Option Nat := none
  functionSize : Option Nat := none
  deriving DecidableEq

/-- JavaScript's `x || d` on an optional numeric configuration value:
`undefined` and `0` are falsy, so both fall back to the default. -/
def jsOrNat (v : Option Nat) (d : Nat) : Nat :=
  match v with
  | none => d
  | some n => if n = 0 then d else n

/-- A location at line 0, character 0 of a file, as built inline for
file-level findings. -/
def fileStartLocation (file : TsNode) : TsLocation :=
  { file := file.data.filePath
    position := { line := 0, character := 0 }
    endPosition := { line := 0, character := 0 } }

/-- The file-size check of `detectComplexitySmells`: a finding when the
file's line count exceeds the threshold, `high` beyond twice the
threshold. -/
def fileSizeFindings (file : TsNode) (fileSizeThreshold : Nat) : List SmellFinding :=
  let lines := file.data.endLine
  if lines > fileSizeThreshold then
    [{ category := .complexityC
       severity := if lines > fileSizeThreshold * 2 then .high else .medium
       location := fileStartLocation file
       message := "File has " ++ toString lines ++ " lines, exceeding threshold of " ++
         toString fileSizeThreshold
       suggestion := some "Consider splitting this file into smaller, more focused modules" }]
  else []

/-- The per-function cyclomatic-complexity check of
`detectComplexitySmells`: a finding when `getNodeComplexity` exceeds the
threshold, with severity `high` only when it exceeds twice the threshold
(strictly), else `medium`. -/
def functionComplexityFindings (func : TsNode) (complexityThreshold : Nat) : List SmellFinding :=
  let complexity := getNodeComplexity func
  if complexity > complexityThreshold then
    [{ category := .complexityC
       severity := if complexity > complexityThreshold * 2 then .high else .medium
       location := nodeToLocation func
       message := "Function has cyclomatic complexity of " ++ toString complexity
       suggestion := some "Consider breaking this function into smaller, more focused functions" }]
  else []

/-- The per-function size check of `detectComplexitySmells`, on
`getEndLineNumber() - getStartLineNumber()`. -/
def functionSizeFindings (func : TsNode) (functionSizeThreshold : Nat) : List SmellFinding :=
  let lines := func.data.endLine - func.data.startLine
  if lines > functionSizeThreshold then
    [{ category := .complexityC
       severity := if lines > functionSizeThreshold * 2 then .high else .medium
       location := nodeToLocation func
       message := "Function has " ++ toString lines ++ " lines, exceeding threshold of " ++
         toString functionSizeThreshold
       suggestion := some "Consider breaking this function into smaller functions" }]
  else []

/-- The per-class check of `detectComplexitySmells`: total method
complexity beyond three times the threshold is a `high` finding. -/
def classComplexityFindings (cls : TsNode) (complexityThreshold : Nat) : List SmellFinding :=
  let totalComplexity := ((getMethods cls).map getNodeComplexity).sum
  if totalComplexity > complexityThreshold * 3 then
    [{ category := .complexityC
       severity := .high
       location := nodeToLocation cls
       message := "Class has total complexity of " ++ toString totalComplexity
       suggestion := some "Consider splitting this class using Single Responsibility Principle" }]
  else []

/-- Source `tools.ts` `detectComplexitySmells`: thresholds default through
JavaScript `||` (so an explicit 0 still gets the default), then the
file-size check, the two per-function checks in source order, and the
per-class check, appending to the shared smells list in that order. -/
def detectComplexitySmells (file : TsNode) (threshold : Option SmellThreshold) :
    List SmellFinding :=
  let t := threshold.getD {}
  let complexityThreshold := jsOrNat t.complexity 10
  let functionSizeThreshold := jsOrNat t.functionSize 50
  let fileSizeThreshold := jsOrNat t.fileSize 300
  fileSizeFindings file fileSizeThreshold ++
  ((getFunctions file).flatMap (fun func =>
    functionComplexityFindings func complexityThreshold ++
    functionSizeFindings func functionSizeThreshold)) ++
  ((getClasses file).flatMap (fun cls => classComplexityFindings cls complexityThreshold))

/-- First character in `A`–`Z`, the source's `/^[A-Z]/` type-name check. -/
def startsWithUppercase (s : String) : Bool :=
  match s.toList with
  | [] => false
  | c :: _ => 65 ≤ c.toNat && c.toNat ≤ 90

/-- The non-descriptive-name denylist of `detectNamingSmells`
(case-insensitive exact match). -/
def denylistNames : List String :=
  ["temp", "tmp", "data", "obj", "arr", "val", "var", "foo", "bar", "test"]

/-- The verb allowlist of `detectNamingSmells`'s function-name check. -/
def verbAllowlist : List String :=
  ["get", "set", "is", "has", "can", "should", "will", "did", "make", "create",
   "update", "delete", "remove", "add", "find", "search", "check", "validate",
   "process", "handle", "on"]

/-- Source `tools.ts` `isLoopCounter`: the node's grandparent is a
for/for-in/for-of statement (`anc` is the ancestor chain, parent first). -/
def isLoopCounter (anc : List TsNode) : Bool :=
  match anc with
  | _ :: gp :: _ =>
    gp.kind = .forStatement ∨ gp.kind = .forInStatement ∨ gp.kind = .forOfStatement
  | _ => false

/-- The naming checks `detectNamingSmells` performs on one descendant
node, in source order.  `node.getName()` is the node's own name. -/
def namingFindingsFor (n : TsNode) (anc : List TsNode) : List SmellFinding :=
  (if n.kind = .variableDeclaration then
    let name := n.data.ownName.getD ""
    (if name.length = 1 ∧ ¬ isLoopCounter anc then
      [{ category := .namingC, severity := .low, location := nodeToLocation n
         message := "Single letter variable name " ++ name
         suggestion := some "Use descriptive variable names" }]
     else []) ++
    (if denylistNames.contains name.toLower then
      [{ category := .namingC, severity := .medium, location := nodeToLocation n
         message := "Non-descriptive variable name " ++ name
         suggestion := some "Use meaningful names that describe the variable purpose" }]
     else [])
   else []) ++
  (if n.kind = .functionDeclaration ∨ n.kind = .methodDeclaration then
    match n.data.ownName with
    | some name =>
      if ¬ (verbAllowlist.any (fun v => strStartsWith name v)) then
        [{ category := .namingC, severity := .low, location := nodeToLocation n
           message := "Function " ++ name ++ " does not start with a verb"
           suggestion := some "Function names should start with verbs to indicate action" }]
      else []
    | none => []
   else []) ++
  (if n.kind = .classDeclaration ∨ n.kind = .interfaceDeclaration then
    match n.data.ownName with
    | some name =>
      if ¬ startsWithUppercase name then
        [{ category := .namingC, severity := .medium, location := nodeToLocation n
           message := "Type " ++ name ++ " does not start with uppercase letter"
           suggestion := some "Type names should use PascalCase" }]
      else []
    | none => []
   else [])

/-- Source `tools.ts` `detectNamingSmells`: the naming checks over every
descendant. -/
def detectNamingSmells (file : TsNode) : List SmellFinding :=
  (descendantsAnc file).flatMap (fun p => namingFindingsFor p.1 p.2)

/-- One reference occurrence as reported by the language service's
`identifier.findReferences()`: the referencing node and its syntactic
parent. -/
structure RefEntry where
  refNode : TsNode
  refParent : Option TsNode

/-- The reference groups the external language service reports for an
identifier, keyed by the identifier's text.  This is ts-morph's
`findReferences` capability (spec: Program Model Adapter), not code of
the analysed modules. -/
def RefOracle : Type := String → List (List RefEntry)

/-- Source `usageCount` as summed by `detectUnusedCode`: for each referenced
symbol group, the group's entry count minus one (the declaration),
accumulated as a JavaScript number (so `Int`). -/
def usageCountOf (oracle : RefOracle) (nameText : String) : Int :=
  ((oracle nameText).map (fun g => (g.length : Int) - 1)).sum

/-- Source `node.getNameNode()` (respectively the method's name node), modelled
as the declaration's first identifier child. -/
def getNameNode (n : TsNode) : Option TsNode :=
  n.children.find? (fun c => c.kind = .identifier)

/-- Source `sourceFile.getVariableDeclarations()`: the declarations of the
file's top-level variable statements. -/
def getVariableDeclarations (file : TsNode) : List TsNode :=
  (file.children.filter (fun c => c.kind = .variableStatement)).flatMap
    (fun st => (descendants st).filter (fun c => c.kind = .variableDeclaration))

/-- Source `tools.ts` `detectUnusedCode`: top-level variable declarations, then
private class methods, whose identifier has zero uses beyond the
declaration itself. -/
def detectUnusedCode (oracle : RefOracle) (file : TsNode) : List SmellFinding :=
  ((getVariableDeclarations file).flatMap (fun varDecl =>
    match getNameNode varDecl with
    | some ident =>
      if usageCountOf oracle ident.data.text = 0 then
        [{ category := .unusedCodeC, severity := .medium, location := nodeToLocation varDecl
           message := "Unused variable " ++ (varDecl.data.ownName.getD "")
           suggestion := some "Remove unused variables to keep code clean" }]
      else []
    | none => [])) ++
  ((getClasses file).flatMap (fun cls =>
    (getMethods cls).flatMap (fun method =>
      if method.hasModifier .privateMod then
        match method.data.ownName, getNameNode method with
        | some name, some ident =>
          if usageCountOf oracle ident.data.text = 0 then
            [{ category := .unusedCodeC, severity := .medium, location := nodeToLocation method
               message := "Unused private method " ++ name
               suggestion := some "Remove unused methods to reduce code complexity" }]
          else []
        | _, _ => []
      else [])))

/-- Function-like kinds: function declaration, method declaration, arrow
function (the kinds `detectAsyncIssues` and `isAwaited` stop at). -/
def isFunctionish (k : SynKind) : Bool :=
  k = .functionDeclaration ∨ k = .methodDeclaration ∨ k = .arrowFunction

/-- Source `tools.ts` `isAwaited`: walk up the parent chain; `true` at an await
expression, `false` at a function boundary or the top. -/
def isAwaited : List TsNode → Bool
  | [] => false
  | p :: rest =>
    if p.kind = .awaitExpression then true
    else if isFunctionish p.kind then false
    else isAwaited rest

/-- The async checks `detectAsyncIssues` performs on one descendant. -/
def asyncFindingsFor (n : TsNode) (anc : List TsNode) : List SmellFinding :=
  (if isFunctionish n.kind ∧ n.hasModifier .asyncMod ∧
      (descendants n).countP (fun c => c.kind = .awaitExpression) = 0 then
    [{ category := .asyncIssuesC, severity := .medium, location := nodeToLocation n
       message := "Async function without await"
       suggestion := some "Remove async keyword if function does not use await" }]
   else []) ++
  (let parentNotReturnOrAwait : Bool :=
    match anc.head? with
    | none => true
    | some p => !(p.kind = .returnStatement : Bool) && !(p.kind = .awaitExpression : Bool)
  if n.kind = .callExpression ∧ n.data.typeSymbolName = some "Promise" ∧
      ¬ isAwaited anc ∧ parentNotReturnOrAwait then
    [{ category := .asyncIssuesC, severity := .high, location := nodeToLocation n
       message := "Promise not awaited"
       suggestion := some "Add await keyword or handle promise properly" }]
   else [])

/-- Source `tools.ts` `detectAsyncIssues` over every descendant. -/
def detectAsyncIssues (file : TsNode) : List SmellFinding :=
  (descendantsAnc file).flatMap (fun p => asyncFindingsFor p.1 p.2)

/-- Source `tools.ts` `detectCouplingIssues`: import-count thresholds 15/25 and
first-constructor parameter-count thresholds 5/8. -/
def detectCouplingIssues (file : TsNode) : List SmellFinding :=
  let imports := getImportDeclarations file
  (if imports.length > 15 then
    [{ category := .couplingC
       severity := if imports.length > 25 then .high else .medium
       location := fileStartLocation file
       message := "File has " ++ toString imports.length ++ " imports"
       suggestion := some "High number of imports may indicate tight coupling. Consider refactoring." }]
   else []) ++
  ((getClasses file).flatMap (fun cls =>
    match (cls.children.filter (fun c => c.kind = .constructorDeclaration)).head? with
    | some ctor =>
      let params := ctor.children.filter (fun c => c.kind = .parameter)
      if params.length > 5 then
        [{ category := .couplingC
           severity := if params.length > 8 then .high else .medium
           location := nodeToLocation ctor
           message := "Constructor has " ++ toString params.length ++ " parameters"
           suggestion := some "Consider using dependency injection container or builder pattern" }]
      else []
    | none => []))

/-- The classification labels of `find_references`. -/
inductive RefKind where
  | readRef
  | writeRef
  | callRef
  | importRef
  deriving DecidableEq

/-- Source `tools.ts` `getReferenceKind`: dispatches purely on the occurrence's
immediate parent — `call` for a call-expression parent, `import` for an
import-specifier parent, `write` for a binary-expression parent whose
operator token is `=`, `read` otherwise.  The occurrence node itself is
never consulted (in particular, not whether it is the assignment's left
operand). -/
def getReferenceKind (parent : Option TsNode) : RefKind :=
  match parent with
  | none => .readRef
  | some p =>
    if p.kind = .callExpression then .callRef
    else if p.kind = .importSpecifier then .importRef
    else
      match p.kind with
      | .binaryExpression op => if op = "=" then .writeRef else .readRef
      | _ => .readRef

/-- A file-system path: absolute or relative, as a list of segments. -/
structure FsPath where
  isAbsolute : Bool
  segs : List String
  deriving DecidableEq

/-- Node `path.normalize` on the segment list: drops `.` segments and
resolves `..` against preceding real segments (leading `..`s survive in a
relative path; in an absolute path a leading `..` is dropped at the
root).  `acc` holds the processed segments in reverse. -/
def normalizeSegsAux (isAbs : Bool) : List String → List String → List String
  | acc, [] => acc.reverse
  | acc, s :: rest =>
    if s = "." then normalizeSegsAux isAbs acc rest
    else if s = ".." then
      match acc with
      | [] => if isAbs then normalizeSegsAux isAbs [] rest else normalizeSegsAux isAbs [".."] rest
      | a :: acc' =>
        if a = ".." then normalizeSegsAux isAbs (".." :: acc) rest
        else normalizeSegsAux isAbs acc' rest
    else normalizeSegsAux isAbs (s :: acc) rest

/-- Node `path.normalize`. -/
def pathNormalize (p : FsPath) : FsPath :=
  { p with segs := normalizeSegsAux p.isAbsolute [] p.segs }

/-- Node `path.resolve(cwd, p)`: an absolute, normalized segment list
(`cwd` is the working directory, absolute and already normalized). -/
def resolveAbs (cwd : List String) (p : FsPath) : List String :=
  if p.isAbsolute then normalizeSegsAux true [] p.segs
  else normalizeSegsAux true [] (cwd ++ p.segs)

/-- Longest common prefix removal, for `path.relative`. -/
def dropCommonSegs : List String → List String → List String × List String
  | a :: as', b :: bs =>
    if a = b then dropCommonSegs as' bs else (a :: as', b :: bs)
  | as', bs => (as', bs)

/-- Node `path.relative(cwd, p)` with `cwd` absolute and normalized: `p`
is resolved against `cwd`, the common prefix is dropped, and one `..` is
emitted per remaining segment of `cwd`. -/
def pathRelativeSegs (cwd : List String) (p : FsPath) : List String :=
  let pair := dropCommonSegs cwd (resolveAbs cwd p)
  List.replicate pair.1.length ".." ++ pair.2

/-- The `relativePath.startsWith("..")` test of `validatePath`, on the
joined path string: its first segment starts with `..`. -/
def relativeStartsWithDotDot (rel : List String) : Bool :=
  match rel.head? with
  | some s => strStartsWith s ".."
  | none => false

/-- The directory names named by `securityConfig.excludePatterns`
(`**/node_modules/**`, `**/.git/**`, `**/dist/**`, `**/build/**`). -/
def excludedDirNames : List String := ["node_modules", ".git", "dist", "build"]

/-- Source `minimatch(path, "**/dir/**")` for the four configured exclusion
globs: the directory name occurs as a non-final segment of the path. -/
def matchesExcludedPattern (segs : List String) : Bool :=
  segs.dropLast.any (fun s => excludedDirNames.contains s)

/-- Source `types.ts` `ErrorCode`. -/
inductive ErrorCode where
  | fileNotFound
  | parseError
  | timeoutErr
  | memoryLimit
  | invalidPattern
  | scopeError
  deriving DecidableEq

/-- Source `types.ts` `AnalysisError` (the `details.file` field retained). -/
structure AnalysisError where
  code : ErrorCode
  message : String
  detailFile : Option String := none
  deriving DecidableEq

/-- Source `utils.ts` `validatePath`: normalize the path, compute its relative
form against the working directory, reject with `SCOPE_ERROR` when that
starts with `..`, then reject paths matching a configured exclusion
glob.  No file is touched. -/
def validatePath (cwd : List String) (filePath : FsPath) : Except AnalysisError Unit :=
  let normalizedPath := pathNormalize filePath
  let relativePath := pathRelativeSegs cwd normalizedPath
  if relativeStartsWithDotDot relativePath then
    .error { code := .scopeError, message := "Path is outside allowed scope"
             detailFile := some (String.intercalate "/" filePath.segs) }
  else if matchesExcludedPattern normalizedPath.segs then
    .error { code := .scopeError, message := "Path matches excluded pattern"
             detailFile := some (String.intercalate "/" filePath.segs) }
  else .ok ()

/-- A path "resolves outside the working root" when the working directory
is not a prefix of the path's absolute resolution. -/
def underRoot : List String → List String → Bool
  | [], _ => true
  | _ :: _, [] => false
  | r :: rs, q :: qs => r = q && underRoot rs qs

/-- The claim-level notion: the path's absolute resolution escapes the
working root (the working directory is not a prefix of it). -/
def resolvesOutsideRoot (cwd : List String) (p : FsPath) : Bool :=
  ! underRoot cwd (resolveAbs cwd (pathNormalize p))

/-- The project environment a tool call runs against: working directory,
the parseable files by absolute path, the `findFiles` result for
project-wide scans, the language service's reference oracle, and the type
graph.  Everything here is the external ts-morph/compiler capability. -/
structure ProjectEnv where
  cwd : List String
  files : List (List String × TsNode)
  projectFiles : List FsPath
  refsOracle : RefOracle
  typeGraph : TypeGraph

/-- Source `project.addSourceFileAtPath`: resolve against the working directory
and look the file up. -/
def readSourceFile (env : ProjectEnv) (p : FsPath) : Option TsNode :=
  (env.files.find? (fun e => e.1 = resolveAbs env.cwd (pathNormalize p))).map (·.2)

/-- A tool outcome paired with the list of file paths whose read/parse
was attempted, in order.  The read list is the observable used to state
"fails before any read is attempted". -/
def ToolRun (α : Type) : Type := Except AnalysisError α × List (List String)

/-- The `outputFormat` parameter of `analyze_file`. -/
inductive OutputFormat where
  | summaryF
  | detailedF
  | fullF
  deriving DecidableEq

/-- Parameters of `analyze_file` (schema defaults applied). -/
structure AnalyzeFileParams where
  filePath : FsPath
  analysisType : AnalysisType
  depth : Nat := 2
  includePrivate : Bool := false
  outputFormat : OutputFormat := .summaryF

/-- The `summary` object `analyzeFile` builds. -/
structure AnalyzeFileSummary where
  totalSymbols : Nat
  complexity : Nat
  dependencies : List String
  deriving DecidableEq

/-- Result of `analyze_file` (metadata reduced to the file size; the
wall-clock fields are external). -/
structure AnalyzeFileResult where
  summary : AnalyzeFileSummary
  symbols : Option (List SymbolInfo)
  diagnostics : Option (List String)
  fileSize : Nat
  deriving DecidableEq

/-- Source `tools.ts` `analyzeFile`: validate the path, load the file, run
`analyzeSourceFile`, and assemble the summary (symbol count, complexity,
module specifiers of imports); `summary` format omits the symbol/diagnostic lists,
`detailed` truncates symbols to 10, `full` keeps them all. -/
def analyzeFileTool (env : ProjectEnv) (params : AnalyzeFileParams) :
    ToolRun AnalyzeFileResult :=
  match validatePath env.cwd params.filePath with
  | .error e => (.error e, [])
  | .ok _ =>
    let target := resolveAbs env.cwd (pathNormalize params.filePath)
    match readSourceFile env params.filePath with
    | none =>
      (.error { code := .fileNotFound, message := "Failed to load file"
                detailFile := some (String.intercalate "/" target) }, [target])
    | some sf =>
      let result := analyzeSourceFile sf params.analysisType params.depth params.includePrivate
      let summary : AnalyzeFileSummary :=
        { totalSymbols := result.symbols.length
          complexity := result.complexity
          dependencies := result.imports.map (·.moduleSpecifier) }
      let fileSize := sf.data.text.length
      if params.outputFormat = .summaryF then
        (.ok { summary := summary, symbols := none, diagnostics := none, fileSize := fileSize },
         [target])
      else
        (.ok { summary := summary
               symbols := some (if params.outputFormat = .fullF then result.symbols
                                else result.symbols.take 10)
               diagnostics := some result.diagnostics
               fileSize := fileSize }, [target])

/-- Parameters of `get_symbol_info` (schema defaults applied). -/
structure GetSymbolInfoParams where
  filePath : FsPath
  position : TsPosition
  includeRelationships : Bool := true
  depth : Nat := 2

/-- Source `TypeInfo` kinds coerced into `SymbolKind` (the source writes
`t.kind as any`). -/
def typeKindToSymbolKind : TypeKindT → SymbolKindT
  | .classK => .classKind
  | .interfaceK => .interfaceKind
  | .enumK => .enumKind
  | .typeK => .typeKind

/-- Source `tools.ts` `getSymbolInfo`: validate, load, resolve the node at the
position (`FILE_NOT_FOUND` when none), extract its symbol info
(`PARSE_ERROR` when none), and, when relationships are requested at
depth > 1 and the type hierarchy is non-empty, overwrite the `extends`
relationship with the hierarchy entries whose name differs from the
symbol's. -/
def getSymbolInfoTool (env : ProjectEnv) (params : GetSymbolInfoParams) :
    ToolRun SymbolInfo :=
  match validatePath env.cwd params.filePath with
  | .error e => (.error e, [])
  | .ok _ =>
    let target := resolveAbs env.cwd (pathNormalize params.filePath)
    match readSourceFile env params.filePath with
    | none =>
      (.error { code := .fileNotFound, message := "Failed to load file"
                detailFile := some (String.intercalate "/" target) }, [target])
    | some sf =>
      match findSymbolAtPosition sf params.position with
      | none =>
        (.error { code := .fileNotFound, message := "No symbol found at position"
                  detailFile := some (String.intercalate "/" target) }, [target])
      | some n =>
        match extractSymbolInfo n false with
        | none =>
          (.error { code := .parseError, message := "Could not extract symbol information"
                    detailFile := some (String.intercalate "/" target) }, [target])
        | some info =>
          if params.includeRelationships ∧ params.depth > 1 then
            let hierarchy := getTypeHierarchy env.typeGraph n .bothDir params.depth
            if hierarchy.length > 0 then
              let ext := (hierarchy.filter (fun t => t.name ≠ info.name)).map (fun t =>
                ({ name := t.name, location := t.location
                   kind := typeKindToSymbolKind t.kind } : SymbolReference))
              let rels :=
                { (info.relationships.getD {}) with extendsRefs := ext }
              (.ok { info with relationships := some rels }, [target])
            else (.ok info, [target])
          else (.ok info, [target])

/-- The `scope` parameter of `find_references`. -/
inductive RefScope where
  | fileScope
  | projectScope
  deriving DecidableEq

/-- Parameters of `find_references` (schema defaults applied). -/
structure FindReferencesParams where
  filePath : FsPath
  position : TsPosition
  includeDeclaration : Bool := false
  scope : RefScope := .projectScope
  maxResults : Nat := 100

/-- One entry of the `references` array built by `findReferences`. -/
structure ReferenceOut where
  location : TsLocation
  kind : RefKind
  context : String
  deriving DecidableEq

/-- Result of `find_references`. -/
structure FindReferencesResult where
  references : List ReferenceOut
  symbol : Option SymbolInfo
  totalReferences : Nat
  deriving DecidableEq

/-- Source `tools.ts` `getContext`: the lines around the node, a text view the
model carries as the node's source text. -/
def getContextOf (n : TsNode) : String :=
  n.data.text

/-- The identifier `findReferences` resolves: the node itself when it is
an identifier, else its first identifier descendant. -/
def resolveIdentifier (n : TsNode) : Option TsNode :=
  if n.kind = .identifier then some n
  else (descendants n).find? (fun c => c.kind = .identifier)

/-- The reference records built from the oracle's groups for an
identifier, in group order. -/
def referencesFor (oracle : RefOracle) (ident : TsNode) : List ReferenceOut :=
  ((oracle ident.data.text).flatMap id).map (fun re =>
    { location := nodeToLocation re.refNode
      kind := getReferenceKind re.refParent
      context := getContextOf re.refNode })

/-- Source `tools.ts` `findReferences`: validate, load, resolve node and symbol
(`FILE_NOT_FOUND` / `PARSE_ERROR`), for project scope first load up to 50
project files into the working set, then enumerate the identifier's
reference entries, classify each with `getReferenceKind`, and return the
first `maxResults` of them with the total count. -/
def findReferencesTool (env : ProjectEnv) (params : FindReferencesParams) :
    ToolRun FindReferencesResult :=
  match validatePath env.cwd params.filePath with
  | .error e => (.error e, [])
  | .ok _ =>
    let target := resolveAbs env.cwd (pathNormalize params.filePath)
    match readSourceFile env params.filePath with
    | none =>
      (.error { code := .fileNotFound, message := "Failed to load file"
                detailFile := some (String.intercalate "/" target) }, [target])
    | some sf =>
      match findSymbolAtPosition sf params.position with
      | none =>
        (.error { code := .fileNotFound, message := "No symbol found at position"
                  detailFile := some (String.intercalate "/" target) }, [target])
      | some n =>
        match n.data.symbolName with
        | none =>
          (.error { code := .parseError, message := "No symbol information available"
                    detailFile := some (String.intercalate "/" target) }, [target])
        | some _ =>
          let extraReads :=
            if params.scope = .projectScope then
              (env.projectFiles.take 50).map (fun p => resolveAbs env.cwd (pathNormalize p))
            else []
          let refs :=
            match resolveIdentifier n with
            | some ident => referencesFor env.refsOracle ident
            | none => []
          (.ok { references := refs.take params.maxResults
                 symbol := extractSymbolInfo n false
                 totalReferences := refs.length }, target :: extraReads)

mutual

/-- Position descent that also returns the found node's ancestor chain
(`anc` is the chain of the node being examined). -/
def nodeChainAtPos : TsNode → List TsNode → Nat → Option (TsNode × List TsNode)
  | .node k d m cs, anc, off =>
    if d.startOffset ≤ off ∧ off < d.endOffset then
      some (match listChainAtPos cs (.node k d m cs :: anc) off with
            | some r => r
            | none => (.node k d m cs, anc))
    else none

/-- Position descent over siblings with ancestor chain `anc`. -/
def listChainAtPos : List TsNode → List TsNode → Nat → Option (TsNode × List TsNode)
  | [], _, _ => none
  | c :: cs, anc, off =>
    match nodeChainAtPos c anc off with
    | some r => some r
    | none => listChainAtPos cs anc off

end

/-- Keyword text of a modifier, for signature printing. -/
def modifierKeywordText : TsModifier → String
  | .publicMod => "public"
  | .privateMod => "private"
  | .protectedMod => "protected"
  | .staticMod => "static"
  | .asyncMod => "async"
  | .readonlyMod => "readonly"
  | .abstractMod => "abstract"

/-- Source `tools.ts` `extractFunctionContext`: ascend to the nearest enclosing
function/method/arrow, then JSDoc texts, the declaration text, and (when
types are requested) per-parameter type comments and a return-type
comment.  The source's ascent is a `while` loop over `getParent()`, here
a search over the ancestor chain (when no enclosing function exists the
source's loop never exits; the model returns the empty context there). -/
def extractFunctionContext (n : TsNode) (anc : List TsNode) (includeTypes : Bool) : String :=
  match (n :: anc).find? (fun m => isFunctionish m.kind) with
  | none => ""
  | some funcNode =>
    let docsPart :=
      if funcNode.data.jsDocTexts.length > 0 then
        String.intercalate "\n" funcNode.data.jsDocTexts ++ "\n"
      else ""
    let base := docsPart ++ funcNode.data.text
    if includeTypes then
      let params := funcNode.children.filter (fun c => c.kind = .parameter)
      let paramsPart :=
        if params.length > 0 then
          "\n\n// Parameter types:\n" ++
          String.join (params.map (fun p =>
            "// " ++ p.data.ownName.getD "" ++ ": " ++ getTypeString p.data.typeText ++ "\n"))
        else ""
      base ++ paramsPart ++ "// Returns: " ++ getTypeString funcNode.data.returnTypeText ++ "\n"
    else base

/-- Member kinds of `types.ts` `MemberInfo`. -/
inductive MemberKind where
  | methodM
  | propertyM
  | getterM
  | setterM
  deriving DecidableEq

/-- Member visibility of `types.ts` `MemberInfo`. -/
inductive Visibility where
  | publicV
  | privateV
  | protectedV
  deriving DecidableEq

/-- Source `types.ts` `MemberInfo`. -/
structure MemberInfo where
  name : String
  kind : MemberKind
  visibility : Visibility
  type : String
  isStatic : Bool
  deriving DecidableEq

/-- Source `analyzer.ts` `extractMembers`: for class/interface declarations, one
record per member the type checker reports (modelled by the declared
members), with kind, visibility and staticness from the declaration. -/
def extractMembers (n : TsNode) : List MemberInfo :=
  if n.kind = .classDeclaration ∨ n.kind = .interfaceDeclaration then
    (n.children.filter (fun c =>
      c.kind = .methodDeclaration ∨ c.kind = .propertyDeclaration ∨
      c.kind = .getAccessor ∨ c.kind = .setAccessor)).map (fun c =>
      { name := c.data.ownName.getD ""
        kind := if c.kind = .methodDeclaration then .methodM
                else if c.kind = .getAccessor then .getterM
                else if c.kind = .setAccessor then .setterM
                else .propertyM
        visibility := if c.hasModifier .privateMod then .privateV
                      else if c.hasModifier .protectedMod then .protectedV
                      else .publicV
        type := getTypeString c.data.typeText
        isStatic := c.hasModifier .staticMod })
  else []

/-- Source `tools.ts` `extractClassContext`: ascend to the nearest enclosing
class, then JSDoc, the `class Name` header with heritage clauses, the
constructors, properties and method signatures, and (when types are
requested) a `// Members:` comment block from `extractMembers`. -/
def extractClassContext (n : TsNode) (anc : List TsNode) (includeTypes : Bool) : String :=
  match (n :: anc).find? (fun m => m.kind = .classDeclaration) with
  | none => ""
  | some cls =>
    let docsPart :=
      if cls.data.jsDocTexts.length > 0 then
        String.intercalate "\n" cls.data.jsDocTexts ++ "\n"
      else ""
    let headerPart := "class " ++ cls.data.ownName.getD "Anonymous" ++
      String.join (cls.data.heritageClauseTexts.map (fun t => " " ++ t))
    let ctors := cls.children.filter (fun c => c.kind = .constructorDeclaration)
    let ctorsPart := String.join (ctors.map (fun c => "  " ++ c.data.text ++ "\n\n"))
    let props := cls.children.filter (fun c => c.kind = .propertyDeclaration)
    let propsPart := String.join (props.map (fun p => "  " ++ p.data.text ++ "\n")) ++
      (if props.length > 0 then "\n" else "")
    let methodsPart := String.join ((getMethods cls).map (fun m =>
      let mods := String.intercalate " " (m.modifiers.map modifierKeywordText)
      let ps := String.intercalate ", " ((m.children.filter (fun c => c.kind = .parameter)).map
        (fun p => p.data.ownName.getD ""))
      "  " ++ mods ++ " " ++ m.data.ownName.getD "" ++ "(" ++ ps ++ "): " ++
        getTypeString m.data.returnTypeText ++ "\n"))
    let membersPart :=
      if includeTypes then
        let members := extractMembers cls
        if members.length > 0 then
          "\n\n// Members:\n" ++
          String.join (members.map (fun mem =>
            "// " ++ (match mem.visibility with
                      | .publicV => "public"
                      | .privateV => "private"
                      | .protectedV => "protected") ++ " " ++
            (if mem.isStatic then "static " else "") ++ mem.name ++ ": " ++ mem.type ++ "\n"))
        else ""
      else ""
    docsPart ++ headerPart ++ " \x7b\n" ++ ctorsPart ++ propsPart ++ methodsPart ++ "\x7d" ++
      membersPart

/-- Source `tools.ts` `extractModuleContext`: file-level comments, the import
list, the export list with exported-declaration signatures, and the
top-level class/function/interface/type-alias headers. -/
def extractModuleContext (sf : TsNode) (includeTypes : Bool) : String :=
  let leadPart :=
    if sf.data.leadingCommentTexts.length > 0 then
      String.intercalate "\n" sf.data.leadingCommentTexts ++ "\n\n"
    else ""
  let imports := getImportDeclarations sf
  let importsPart :=
    if imports.length > 0 then
      "// Imports:\n" ++ String.join (imports.map (fun i => i.data.text ++ "\n")) ++ "\n"
    else ""
  let exportDecls := sf.children.filter (fun c => c.kind = .exportDeclaration)
  let exportsPart :=
    if exportDecls.length > 0 ∨ sf.data.exportedDeclSignatures.length > 0 then
      "// Exports:\n" ++ String.join (exportDecls.map (fun e => e.data.text ++ "\n")) ++
      String.join (sf.data.exportedDeclSignatures.map (fun s => s ++ "\n")) ++ "\n"
    else ""
  let classes := getClasses sf
  let classesPart :=
    if classes.length > 0 then
      "// Classes:\n" ++
      String.join (classes.map (fun c => "class " ++ c.data.ownName.getD "Anonymous" ++ "\n")) ++ "\n"
    else ""
  let funcs := getFunctions sf
  let funcsPart :=
    if funcs.length > 0 then
      "// Functions:\n" ++
      String.join (funcs.map (fun f =>
        let ps := String.intercalate ", " ((f.children.filter (fun c => c.kind = .parameter)).map
          (fun p => p.data.ownName.getD ""))
        "function " ++ f.data.ownName.getD "" ++ "(" ++ ps ++ ")\n")) ++ "\n"
    else ""
  let interfaces := sf.children.filter (fun c => c.kind = .interfaceDeclaration)
  let typeAliases := sf.children.filter (fun c => c.kind = .typeAliasDeclaration)
  let typesPart :=
    if includeTypes ∧ (interfaces.length > 0 ∨ typeAliases.length > 0) then
      "// Types:\n" ++
      String.join (interfaces.map (fun i => "interface " ++ i.data.ownName.getD "" ++ "\n")) ++
      String.join (typeAliases.map (fun t => "type " ++ t.data.ownName.getD "" ++ "\n"))
    else ""
  leadPart ++ importsPart ++ exportsPart ++ classesPart ++ funcsPart ++ typesPart

/-- Display text of a `SymbolKind`. -/
def symbolKindText : SymbolKindT → String
  | .classKind => "class"
  | .interfaceKind => "interface"
  | .enumKind => "enum"
  | .functionKind => "function"
  | .methodKind => "method"
  | .propertyKind => "property"
  | .variableKind => "variable"
  | .parameterKind => "parameter"
  | .typeKind => "type"
  | .namespaceKind => "namespace"
  | .moduleKind => "module"

/-- JavaScript `Set` insertion-order deduplication. -/
def dedupKeepFirst (l : List String) : List String :=
  l.foldl (fun acc s => if acc.contains s then acc else acc ++ [s]) []

/-- Source `tools.ts` `extractRelatedContext`: the focal symbol's header and
text, its extends/implements names, and optionally the deduplicated
`file:line` reference locations, capped at 10 with an `... and N more`
suffix. -/
def extractRelatedContext (n : TsNode) (oracle : RefOracle) (followReferences : Bool) : String :=
  match n.data.symbolName with
  | none => ""
  | some _ =>
    match extractSymbolInfo n true with
    | none => ""
    | some info =>
      let headPart := "// " ++ symbolKindText info.kind ++ ": " ++ info.name ++ "\n" ++
        n.data.text ++ "\n\n"
      let relPart :=
        match info.relationships with
        | none => ""
        | some rels =>
          (if rels.extendsRefs.length > 0 then
            "// Extends:\n" ++
            String.join (rels.extendsRefs.map (fun e => "// - " ++ e.name ++ "\n")) ++ "\n"
           else "") ++
          (if rels.implementsRefs.length > 0 then
            "// Implements:\n" ++
            String.join (rels.implementsRefs.map (fun i => "// - " ++ i.name ++ "\n")) ++ "\n"
           else "")
      let refsPart :=
        if followReferences ∧ n.kind = .identifier then
          let locations := dedupKeepFirst (((oracle n.data.text).flatMap id).map (fun re =>
            re.refNode.data.filePath ++ ":" ++ toString re.refNode.data.startLine))
          if locations.length > 0 then
            "// Referenced in:\n" ++
            String.join ((locations.take 10).map (fun loc => "// - " ++ loc ++ "\n")) ++
            (if locations.length > 10 then
              "// ... and " ++ toString (locations.length - 10) ++ " more locations\n"
             else "")
          else ""
        else ""
      headPart ++ relPart ++ refsPart

/-- The `contextType` parameter of `extract_context`. -/
inductive ContextType where
  | functionCtx
  | classCtx
  | moduleCtx
  | relatedCtx
  deriving DecidableEq

/-- Parameters of `extract_context` (schema defaults applied). -/
structure ExtractContextParams where
  filePath : FsPath
  position : Option TsPosition := none
  contextType : ContextType
  maxTokens : Nat := 2000
  includeImports : Bool := true
  includeTypes : Bool := true
  followReferences : Bool := false

/-- Result of `extract_context`. -/
structure ExtractContextResult where
  mainContext : String
  imports : Option (List String)
  tokenCount : Nat
  deriving DecidableEq

/-- Source `tools.ts` `extractContext`: validate, load, resolve the focal node
when a position is given (`FILE_NOT_FOUND` when none is there), build the
requested context, optionally the import texts, estimate tokens as
`length / 4`, and truncate proportionally when over budget (the
JavaScript `length × (maxTokens / tokenCount)` computed in rationals,
then floored). -/
def extractContextTool (env : ProjectEnv) (params : ExtractContextParams) :
    ToolRun ExtractContextResult :=
  match validatePath env.cwd params.filePath with
  | .error e => (.error e, [])
  | .ok _ =>
    let target := resolveAbs env.cwd (pathNormalize params.filePath)
    match readSourceFile env params.filePath with
    | none =>
      (.error { code := .fileNotFound, message := "Failed to load file"
                detailFile := some (String.intercalate "/" target) }, [target])
    | some sf =>
      let found :=
        match params.position with
        | some pos => listChainAtPos sf.children [sf] (positionToOffset sf pos)
        | none => none
      if params.position.isSome ∧ found.isNone then
        (.error { code := .fileNotFound, message := "No symbol found at position"
                  detailFile := some (String.intercalate "/" target) }, [target])
      else
        let mainContext :=
          match params.contextType, found with
          | .functionCtx, some (n, anc) => extractFunctionContext n anc params.includeTypes
          | .classCtx, some (n, anc) => extractClassContext n anc params.includeTypes
          | .moduleCtx, _ => extractModuleContext sf params.includeTypes
          | .relatedCtx, some (n, _) => extractRelatedContext n env.refsOracle params.followReferences
          | _, _ => ""
        let importsOut :=
          if params.includeImports then
            some ((getImportDeclarations sf).map (fun i => i.data.text))
          else none
        let tokenCount := mainContext.length / 4
        if tokenCount > params.maxTokens then
          let newLength := mainContext.length * params.maxTokens / tokenCount
          (.ok { mainContext := (mainContext.take newLength) ++ "\n... (truncated)"
                 imports := importsOut
                 tokenCount := params.maxTokens }, [target])
        else
          (.ok { mainContext := mainContext, imports := importsOut, tokenCount := tokenCount },
           [target])

/-- Parameters of `detect_code_smells`. -/
structure DetectSmellsParams where
  filePath : Option FsPath := none
  categories : Option (List SmellCategory) := none
  threshold : Option SmellThreshold := none

/-- The category default of `detectCodeSmells` when none are given. -/
def allSmellCategories : List SmellCategory :=
  [.complexityC, .duplicationC, .couplingC, .namingC, .unusedCodeC, .asyncIssuesC]

/-- Sort rank used by `detectCodeSmells`'s severity sort
(`high: 0, medium: 1, low: 2`). -/
def severityOrder : Severity → Nat
  | .high => 0
  | .medium => 1
  | .low => 2

/-- Result of `detect_code_smells`. -/
structure DetectSmellsResult where
  smells : List SmellFinding
  total : Nat
  byCategory : List (SmellCategory × Nat)
  bySeverityHigh : Nat
  bySeverityMedium : Nat
  bySeverityLow : Nat
  deriving DecidableEq

/-- The per-file body of `detectCodeSmells`'s fan-out task: validate the
path and load the file *inside* the task's try/catch, then run the
enabled detectors in source order (the `duplication` branch is a
placeholder).  Any error — including the `ScopeError` thrown by
`validatePath` — is caught and logged, and the file contributes nothing.
Returns the findings and the read attempts. -/
def detectSmellsForFile (env : ProjectEnv) (categories : List SmellCategory)
    (threshold : Option SmellThreshold) (p : FsPath) :
    List SmellFinding × List (List String) :=
  match validatePath env.cwd p with
  | .error _ => ([], [])
  | .ok _ =>
    let target := resolveAbs env.cwd (pathNormalize p)
    match readSourceFile env p with
    | none => ([], [target])
    | some sf =>
      ((if categories.contains .complexityC then detectComplexitySmells sf threshold else []) ++
       (if categories.contains .namingC then detectNamingSmells sf else []) ++
       (if categories.contains .unusedCodeC then detectUnusedCode env.refsOracle sf else []) ++
       (if categories.contains .asyncIssuesC then detectAsyncIssues sf else []) ++
       (if categories.contains .couplingC then detectCouplingIssues sf else []),
       [target])

/-- Source `tools.ts` `detectCodeSmells`: the file set is the single given path
or the `findFiles` result; each file is processed by `detectSmellsForFile`
(the bounded fan-out is modelled sequentially); the aggregated findings
are sorted by severity (high, medium, low; JavaScript's stable sort) and
summarised by category and severity.  The whole tool returns `ok` even
when every file was skipped by a caught error. -/
def detectCodeSmellsTool (env : ProjectEnv) (params : DetectSmellsParams) :
    ToolRun DetectSmellsResult :=
  let files := match params.filePath with
    | some p => [p]
    | none => env.projectFiles
  let categories := params.categories.getD allSmellCategories
  let perFile := files.map (detectSmellsForFile env categories params.threshold)
  let smells := perFile.flatMap (·.1)
  let reads := perFile.flatMap (·.2)
  let sorted := smells.mergeSort (fun a b =>
    severityOrder a.severity ≤ severityOrder b.severity)
  (.ok { smells := sorted
         total := smells.length
         byCategory := categories.map (fun cat =>
           (cat, (smells.filter (fun s => s.category = cat)).length))
         bySeverityHigh := (smells.filter (fun s => s.severity = .high)).length
         bySeverityMedium := (smells.filter (fun s => s.severity = .medium)).length
         bySeverityLow := (smells.filter (fun s => s.severity = .low)).length },
   reads)

/-- A JSON-serializable JavaScript value as passed in tool parameter
lists: `undefined`, `null`, booleans, numbers (integral model), strings,
and plain objects with insertion-ordered fields. -/
inductive JsValue where
  | vundef
  | vnull
  | vbool (b : Bool)
  | vnum (n : Int)
  | vstr (s : String)
  | vobj (fields : List (String × JsValue))

/-- UTF-16-code-unit string comparison, the order JavaScript's default
`Array.prototype.sort` uses on `Object.keys`. -/
def strLeB (a b : String) : Bool :=
  charListLe a.toList b.toList
where
  charListLe : List Char → List Char → Bool
    | [], _ => true
    | _ :: _, [] => false
    | c :: cs, d :: ds =>
      if c.toNat < d.toNat then true
      else if d.toNat < c.toNat then false
      else charListLe cs ds

/-- Source `Object.keys(part).sort()`. -/
def sortKeys (l : List String) : List String :=
  List.insertionSort (fun a b => strLeB a b = true) l

/-- JSON string quoting (quote and backslash escaped; other escapes do
not arise in the values considered here). -/
def jsonQuote (s : String) : String :=
  "\"" ++ String.join (s.toList.map (fun c =>
    if c = '"' then "\\\"" else if c = '\\' then "\\\\" else String.singleton c)) ++ "\""

/-- First-occurrence lookup in a serialized-field association list. -/
def lookupFirst : List (String × Option String) → String → Option (Option String)
  | [], _ => none
  | (k', v) :: rest, k => if k' = k then some v else lookupFirst rest k

/-- First-occurrence field lookup, i.e. JavaScript property access on an
object literal (keys are unique in a real object). -/
def lookupPair : List (String × JsValue) → String → Option JsValue
  | [], _ => none
  | (k', v) :: rest, k => if k' = k then some v else lookupPair rest k

/-- The member strings `JSON.stringify` emits for one object: the
`PropertyList` (replacer array) `allow` is walked in order; a key
present on the object with a defined serialized value contributes
`"key":value`; everything else is skipped. -/
def memberStrings (allow : List String) (assoc : List (String × Option String)) : List String :=
  allow.filterMap (fun k =>
    match lookupFirst assoc k with
    | some (some s) => some (jsonQuote k ++ ":" ++ s)
    | _ => none)

mutual

/-- Source `JSON.stringify(v, allow)` per the ECMAScript serialization with a
replacer array: the same `PropertyList` filters and orders the members of
every object at every nesting level; `undefined` serializes to nothing
(`none`). -/
def stringifyJs (allow : List String) : JsValue → Option String
  | .vundef => none
  | .vnull => some "null"
  | .vbool b => some (if b then "true" else "false")
  | .vnum n => some (toString n)
  | .vstr s => some (jsonQuote s)
  | .vobj fields =>
    some ("\x7b" ++ String.intercalate "," (memberStrings allow (stringifyFields allow fields)) ++ "\x7d")

/-- Serialized values of an object's fields, in field order. -/
def stringifyFields (allow : List String) : List (String × JsValue) → List (String × Option String)
  | [] => []
  | (k, v) :: rest => (k, stringifyJs allow v) :: stringifyFields allow rest

end

/-- One parameter's normalization in `cache.ts` `generateCacheKey`:
`undefined`/`null` become `"null"`; an object is serialized by
`JSON.stringify(part, Object.keys(part).sort())` — so the replacer array
holds only the object's own top-level keys; anything else is
`String(part)`. -/
def normalizeCacheParam : JsValue → String
  | .vundef => "null"
  | .vnull => "null"
  | .vobj fields => (stringifyJs (sortKeys (fields.map (·.1))) (.vobj fields)).getD "null"
  | .vbool b => if b then "true" else "false"
  | .vnum n => toString n
  | .vstr s => s

/-- The SHA-256 hex digest of `generateCacheKey`, modelled as an abstract
deterministic function of the hashed text (both cache-key claims depend
only on the digest being a function of its input). -/
def sha256Hex (s : String) : String := s

/-- Source `cache.ts` `CacheManager.generateCacheKey`: normalize every part,
join with `:`, hash. -/
def generateCacheKey (parts : List JsValue) : String :=
  sha256Hex (String.intercalate ":" (parts.map normalizeCacheParam))

/-- Source `cache.ts` `AnalysisResult` as persisted: the opaque data blob
(modelled as a string) and the write timestamp. -/
structure AnalysisResultEntry where
  resultData : String
  timestamp : Nat
  deriving DecidableEq

/-- The persistent analysis cache of `CacheManager`: the effective
time-to-live (milliseconds) and the key-value storage of the disk cache. -/
structure CacheState where
  ttl : Nat
  analysisStore : List (String × AnalysisResultEntry)
  deriving DecidableEq

/-- The `CacheManager` constructor's option handling:
`options.ttl || <1 hour>` (JavaScript `||`, so an explicit 0 also falls
back), with empty storage. -/
def mkCacheManager (ttlOpt : Option Nat) : CacheState :=
  { ttl := jsOrNat ttlOpt 3600000, analysisStore := [] }

/-- Source `storage.setItem`: overwrite the key. -/
def storeSet (store : List (String × AnalysisResultEntry)) (k : String)
    (v : AnalysisResultEntry) : List (String × AnalysisResultEntry) :=
  (k, v) :: store.filter (fun e => ¬ e.1 = k)

/-- Source `storage.removeItem`. -/
def storeRemove (store : List (String × AnalysisResultEntry)) (k : String) :
    List (String × AnalysisResultEntry) :=
  store.filter (fun e => ¬ e.1 = k)

/-- Source `storage.getItem`. -/
def storeGet (store : List (String × AnalysisResultEntry)) (k : String) :
    Option AnalysisResultEntry :=
  (store.find? (fun e => e.1 = k)).map (·.2)

/-- Source `cache.ts` `CacheManager.setCachedAnalysis`: persist the data with
the current timestamp. -/
def setCachedAnalysis (s : CacheState) (now : Nat) (key : String) (dataStr : String) :
    CacheState :=
  { s with analysisStore := storeSet s.analysisStore key { resultData := dataStr, timestamp := now } }

/-- Source `cache.ts` `CacheManager.getCachedAnalysis`: a missing entry is a
miss; an entry older than the time-to-live (`now - timestamp > ttl`) is
deleted and reported as a miss; otherwise the stored data is returned
(stored entries are objects, hence always truthy for `DiskCache.get`). -/
def getCachedAnalysis (s : CacheState) (now : Nat) (key : String) :
    Option String × CacheState :=
  match storeGet s.analysisStore key with
  | none => (none, s)
  | some cached =>
    if now - cached.timestamp > s.ttl then
      (none, { s with analysisStore := storeRemove s.analysisStore key })
    else (some cached.resultData, s)

/-- Source `cache.ts` `memoize` (with the default key generator), one call: the
key is `generateCacheKey` of the arguments; a cache hit is returned as
is; a miss computes `f args`, stores it, and returns it.  The memoized
function's result is modelled as a string (it is always defined, so the
`cached !== undefined` test is a plain hit test). -/
def memoizeCall (f : List JsValue → String) (s : CacheState) (now : Nat)
    (args : List JsValue) : String × CacheState :=
  let key := generateCacheKey args
  match getCachedAnalysis s now key with
  | (some cached, s') => (cached, s')
  | (none, s') => (f args, setCachedAnalysis s' now key (f args))

/-- Key list of an object's fields. -/
def keysF (fields : List (String × JsValue)) : List String :=
  fields.map (·.1)

/-- Canonical-ordering sort of an object's fields by key. -/
def sortPairs (l : List (String × JsValue)) : List (String × JsValue) :=
  List.insertionSort (fun a b => strLeB a.1 b.1 = true) l

mutual

/-- Canonical form of a value: every object's fields recursively sorted
by key.  Two well-formed values have the same canonical form exactly when
they are equal up to the insertion order of object keys. -/
def canonV : JsValue → JsValue
  | .vobj fields => .vobj (sortPairs (canonFields fields))
  | v => v

/-- Canonical form of each field's value, keeping field order. -/
def canonFields : List (String × JsValue) → List (String × JsValue)
  | [] => []
  | (k, v) :: rest => (k, canonV v) :: canonFields rest

end

/-- No duplicate keys. -/
def nodupKeysB : List String → Bool
  | [] => true
  | k :: rest => !rest.contains k && nodupKeysB rest

mutual

/-- Well-formedness of a JavaScript value: every object (at any depth)
has pairwise-distinct keys, as real JavaScript objects do. -/
def wfKeysV : JsValue → Bool
  | .vobj fields => nodupKeysB (keysF fields) && wfKeysF fields
  | _ => true

/-- Well-formedness of every field value. -/
def wfKeysF : List (String × JsValue) → Bool
  | [] => true
  | (_, v) :: rest => wfKeysV v && wfKeysF rest

end

/-! ## Claim-side definitions and supporting lemmas -/

/-- Translated from the claim wording for C2: branching constructs are
"conditional statements/expressions, all loop forms, catch clauses, case
clauses, and binary *logical* expressions" — so of the binary operators
only the logical ones (`&&`, `||`) count. -/
def isClaimBranchingKind : SynKind → Bool
  | .ifStatement => true
  | .forStatement => true
  | .forInStatement => true
  | .forOfStatement => true
  | .whileStatement => true
  | .doStatement => true
  | .conditionalExpression => true
  | .catchClause => true
  | .caseClause => true
  | .binaryExpression op => op = "&&" ∨ op = "||"
  | _ => false

/-- The claim's count of branching constructs in a node's body. -/
def claimBranchingCount (n : TsNode) : Nat :=
  (descendants n).countP (fun c => isClaimBranchingKind c.kind)

/-- Translated from the amended claim for C2: as the claim, but counting
every binary expression, whatever its operator. -/
def isAmendedBranchingKind : SynKind → Bool
  | .ifStatement => true
  | .forStatement => true
  | .forInStatement => true
  | .forOfStatement => true
  | .whileStatement => true
  | .doStatement => true
  | .conditionalExpression => true
  | .catchClause => true
  | .caseClause => true
  | .binaryExpression _ => true
  | _ => false

/-- The amended claim's count of branching constructs. -/
def amendedBranchingCount (n : TsNode) : Nat :=
  (descendants n).countP (fun c => isAmendedBranchingKind c.kind)

/-- An `if (cond) {}` statement with an identifier condition and empty
block, as appended by `addSimpleIf`. -/
def simpleIfTemplate : TsNode :=
  .node .ifStatement {} [] [.node .identifier {} [] [], .node .block {} [] []]

/-- Adding one plain `if` statement (identifier condition, empty block)
to the end of a node's body. -/
def addSimpleIf : TsNode → TsNode
  | .node k d m cs => .node k d m (cs ++ [simpleIfTemplate])

theorem descendantsList_append (l₁ l₂ : List TsNode) :
    descendantsList (l₁ ++ l₂) = descendantsList l₁ ++ descendantsList l₂ := by
  induction l₁ with
  | nil => simp [descendantsList]
  | cons c cs ih => simp [descendantsList, ih]

theorem complexity_pred_eq_amended (k : SynKind) :
    isComplexityKind k = isAmendedBranchingKind k := by
  cases k <;> rfl

/-- A function with body `return a + b`: no branching construct in the
claim's sense, yet one counted `BinaryExpression` descendant. -/
def plusReturnFunc : TsNode :=
  .node .functionDeclaration { symbolName := some "sum", ownName := some "sum" } []
    [.node .block {} []
      [.node .returnStatement {} []
        [.node (.binaryExpression "+") {} []
          [.node .identifier { text := "a" } [] [],
           .node .identifier { text := "b" } [] []]]]]

/-- C2 counterexample: the code's `getNodeComplexity` counts *every*
binary expression, so a function whose only candidate construct is the
arithmetic `a + b` has complexity 2, while the claim's
"1 + branching constructs (binary logical only)" predicts 1. -/
theorem getNodeComplexity_counts_nonlogical_binary :
    getNodeComplexity plusReturnFunc = 2 ∧
    claimBranchingCount plusReturnFunc = 0 ∧
    getNodeComplexity plusReturnFunc ≠ 1 + claimBranchingCount plusReturnFunc := by
  refine ⟨rfl, rfl, by decide⟩

/-- C2 (amended): cyclomatic complexity is exactly `1 + count(branching
constructs)` where the branching constructs are conditional
statements/expressions, all loop forms, catch clauses, case clauses, and
*all* binary expressions (any operator, not only logical ones); hence a
node with zero such constructs has complexity exactly 1, and appending
one plain `if` statement increases the complexity by exactly 1. -/
theorem getNodeComplexity_branching_count (n : TsNode) :
    getNodeComplexity n = 1 + amendedBranchingCount n ∧
    (amendedBranchingCount n = 0 → getNodeComplexity n = 1) ∧
    getNodeComplexity (addSimpleIf n) = getNodeComplexity n + 1 := by
  have hpred : (fun c : TsNode => isComplexityKind c.kind) =
      (fun c : TsNode => isAmendedBranchingKind c.kind) := by
    funext c; exact complexity_pred_eq_amended c.kind
  refine ⟨by rw [getNodeComplexity, amendedBranchingCount, hpred], ?_, ?_⟩
  · intro h0
    rw [getNodeComplexity, amendedBranchingCount, hpred] at *
    omega
  · cases n with
    | node k d m cs =>
      have hone : (descendantsList [simpleIfTemplate]).countP
          (fun c => isComplexityKind c.kind) = 1 := by decide
      simp [addSimpleIf, getNodeComplexity, descendants, descendantsList_append,
        List.countP_append, hone]
      omega

/-- C2 witness: a concrete function with one `if` (complexity 2 = 1 + 1),
and the zero-construct consequence at a constant function. -/
def oneIfFunc : TsNode :=
  .node .functionDeclaration { symbolName := some "f", ownName := some "f" } []
    [.node .block {} [] [simpleIfTemplate]]

theorem getNodeComplexity_branching_count_witness :
    getNodeComplexity oneIfFunc = 1 + amendedBranchingCount oneIfFunc ∧
    getNodeComplexity (.node .functionDeclaration {} [] []) = 1 ∧
    getNodeComplexity (addSimpleIf oneIfFunc) = getNodeComplexity oneIfFunc + 1 :=
  ⟨(getNodeComplexity_branching_count oneIfFunc).1,
   (getNodeComplexity_branching_count (.node .functionDeclaration {} [] [])).2.1 (by decide),
   (getNodeComplexity_branching_count oneIfFunc).2.2⟩

/-- The effective complexity threshold `detectComplexitySmells` computes:
`(threshold || {}).complexity || 10`. -/
def effComplexityThreshold (threshold : Option SmellThreshold) : Nat :=
  jsOrNat (threshold.getD {}).complexity 10

/-- C1 (amended): for a function with cyclomatic complexity `c` and
effective threshold `t`, `detectComplexitySmells` emits no
function-complexity finding when `c ≤ t`, exactly one `medium` finding
when `t < c ≤ 2×t` (including `c = 2×t`), and exactly one `high` finding
only when `c > 2×t`; every such finding lands in the tool's aggregated
smell list for the file containing the function. -/
theorem detectComplexitySmells_function_severity (threshold : Option SmellThreshold)
    (file func : TsNode) (hf : func ∈ getFunctions file) :
    (getNodeComplexity func ≤ effComplexityThreshold threshold →
      functionComplexityFindings func (effComplexityThreshold threshold) = []) ∧
    (effComplexityThreshold threshold < getNodeComplexity func →
      getNodeComplexity func ≤ 2 * effComplexityThreshold threshold →
      (functionComplexityFindings func (effComplexityThreshold threshold)).map (·.severity) =
        [.medium]) ∧
    (2 * effComplexityThreshold threshold < getNodeComplexity func →
      (functionComplexityFindings func (effComplexityThreshold threshold)).map (·.severity) =
        [.high]) ∧
    (∀ fd ∈ functionComplexityFindings func (effComplexityThreshold threshold),
      fd ∈ detectComplexitySmells file threshold) := by
  constructor
  · intro hle
    simp only [functionComplexityFindings]
    rw [if_neg (by omega)]
  constructor
  · intro h1 h2
    simp only [functionComplexityFindings]
    rw [if_pos (by omega), if_neg (by omega)]
    rfl
  constructor
  · intro h1
    simp only [functionComplexityFindings]
    rw [if_pos (by omega), if_pos (by omega)]
    rfl
  · intro fd hfd
    have : fd ∈ (getFunctions file).flatMap (fun f =>
        functionComplexityFindings f (effComplexityThreshold threshold) ++
        functionSizeFindings f (jsOrNat ((threshold.getD {}).functionSize) 50)) := by
      refine List.mem_flatMap.mpr ⟨func, hf, ?_⟩
      exact List.mem_append_left _ hfd
    simp only [detectComplexitySmells, effComplexityThreshold] at *
    exact List.mem_append_left _ (List.mem_append_right _ this)

/-- A function whose complexity is 2 (one `if`), inside a small file. -/
def c1Func : TsNode :=
  .node .functionDeclaration { symbolName := some "f", ownName := some "f" } []
    [.node .block {} [] [simpleIfTemplate]]

/-- A file containing only `c1Func`. -/
def c1File : TsNode :=
  .node .sourceFileKind { filePath := "/work/c1.ts" } [] [c1Func]

/-- Source `detect_code_smells` threshold with `complexity: 1`. -/
def c1Threshold : SmellThreshold := { complexity := some 1 }

/-- C1 counterexample: with threshold 1, a function of complexity 2 —
exactly `2×threshold` — is reported `medium`, not `high` as the claim
states (the code requires strictly more than `2×threshold` for `high`). -/
theorem detectComplexitySmells_double_threshold_is_medium :
    getNodeComplexity c1Func = 2 * effComplexityThreshold (some c1Threshold) ∧
    (detectComplexitySmells c1File (some c1Threshold)).map (·.severity) = [.medium] ∧
    ((detectComplexitySmells c1File (some c1Threshold)).map (·.severity) ≠ [.high]) := by
  refine ⟨rfl, rfl, by decide⟩

/-- C1 witness data: threshold 3, a function of complexity 5 (four `if`s
would exceed; three give 4; here two `if`s and one `while` and one `for`
give 5). -/
def c1wFunc : TsNode :=
  .node .functionDeclaration { symbolName := some "g", ownName := some "g" } []
    [.node .block {} []
      [simpleIfTemplate, simpleIfTemplate,
       .node .whileStatement {} [] [], .node .forStatement {} [] []]]

/-- File containing `c1wFunc`. -/
def c1wFile : TsNode :=
  .node .sourceFileKind { filePath := "/work/c1w.ts" } [] [c1wFunc]

/-- Threshold 3 for the C1 witness. -/
def c1wThreshold : SmellThreshold := { complexity := some 3 }

/-- A complexity-1 function and a file containing it, for the no-finding
branch of the C1 witness. -/
def c1wEmptyFunc : TsNode :=
  .node .functionDeclaration { symbolName := some "h", ownName := some "h" } []
    [.node .block {} [] []]

/-- File containing `c1wEmptyFunc`. -/
def c1wFile2 : TsNode :=
  .node .sourceFileKind { filePath := "/work/c1w2.ts" } [] [c1wEmptyFunc]

theorem detectComplexitySmells_function_severity_witness :
    (functionComplexityFindings c1wFunc (effComplexityThreshold (some c1wThreshold))).map
      (·.severity) = [.medium] ∧
    (∀ fd ∈ functionComplexityFindings c1wFunc (effComplexityThreshold (some c1wThreshold)),
      fd ∈ detectComplexitySmells c1wFile (some c1wThreshold)) ∧
    functionComplexityFindings c1wEmptyFunc (effComplexityThreshold (some c1wThreshold)) = [] :=
  ⟨(detectComplexitySmells_function_severity (some c1wThreshold) c1wFile c1wFunc
      (List.Mem.head _)).2.1 (by decide) (by decide),
   (detectComplexitySmells_function_severity (some c1wThreshold) c1wFile c1wFunc
      (List.Mem.head _)).2.2.2,
   (detectComplexitySmells_function_severity (some c1wThreshold) c1wFile2 c1wEmptyFunc
      (List.Mem.head _)).1 (by decide)⟩


mutual

/-- Structural equality of nodes (node identity is structural in the
model). -/
def tsNodeBeq : TsNode → TsNode → Bool
  | .node k₁ d₁ m₁ cs₁, .node k₂ d₂ m₂ cs₂ =>
    k₁ == k₂ && d₁ == d₂ && m₁ == m₂ && tsNodeListBeq cs₁ cs₂

/-- Structural equality of node lists. -/
def tsNodeListBeq : List TsNode → List TsNode → Bool
  | [], [] => true
  | a :: as', b :: bs => tsNodeBeq a b && tsNodeListBeq as' bs
  | _, _ => false

end

/-- Translated from the claim wording for C4: `write` requires the parent
to be an assignment *and* the occurrence to be the assignment's left
operand (the first child of the binary expression). -/
def claimReferenceKind (parent : Option TsNode) (occurrence : TsNode) : RefKind :=
  match parent with
  | none => .readRef
  | some p =>
    if p.kind = .callExpression then .callRef
    else if p.kind = .importSpecifier then .importRef
    else
      match p.kind with
      | .binaryExpression op =>
        if op = "=" ∧ (match p.children.head? with
                       | some l => tsNodeBeq l occurrence
                       | none => false) = true then .writeRef
        else .readRef
      | _ => .readRef

/-- Translated from the amended claim for C4: `write` for any occurrence
whose parent is an assignment (`=` binary expression), regardless of
which operand the occurrence is. -/
def amendedReferenceKind (parent : Option TsNode) : RefKind :=
  match parent with
  | none => .readRef
  | some p =>
    match p.kind with
    | .callExpression => .callRef
    | .importSpecifier => .importRef
    | .binaryExpression op => if op = "=" then .writeRef else .readRef
    | _ => .readRef

/-- The left operand of `x = y`. -/
def c4Left : TsNode := .node .identifier { text := "x", symbolName := some "x" } [] []

/-- The right operand of `x = y`. -/
def c4Right : TsNode := .node .identifier { text := "y", symbolName := some "y" } [] []

/-- The assignment `x = y`. -/
def c4Assign : TsNode := .node (.binaryExpression "=") {} [] [c4Left, c4Right]

/-- A reference oracle reporting one occurrence of `y`: the right operand
of the assignment `x = y`. -/
def c4Oracle : RefOracle :=
  fun s => if s = "y" then [[{ refNode := c4Right, refParent := some c4Assign }]] else []

/-- C4 counterexample: the code classifies the *right* operand of
`x = y` as `write` (it never checks which operand the occurrence is),
while the claim's classification — requiring the occurrence to be the
left operand — yields `read`; the same `write` comes back in the
reference list `findReferences` builds. -/
theorem getReferenceKind_write_right_operand :
    getReferenceKind (some c4Assign) = .writeRef ∧
    c4Assign.children.head? = some c4Left ∧
    tsNodeBeq c4Left c4Right = false ∧
    claimReferenceKind (some c4Assign) c4Right = .readRef ∧
    (referencesFor c4Oracle c4Right).map (·.kind) = [.writeRef] := by
  refine ⟨rfl, rfl, by decide, by decide, rfl⟩

theorem getReferenceKind_eq_amended (p : Option TsNode) :
    getReferenceKind p = amendedReferenceKind p := by
  match p with
  | none => rfl
  | some (.node k d m cs) => cases k <;> rfl

/-- C4 (amended): every reference occurrence returned by
`findReferences` is classified from its immediate parent alone — `call`
iff the parent is a call expression, `import` iff it is an import
specifier, `write` iff it is an `=` binary expression (either operand),
and `read` otherwise. -/
theorem getReferenceKind_classification (p : Option TsNode) :
    (getReferenceKind p = amendedReferenceKind p) ∧
    (getReferenceKind p = .callRef ↔ ∃ q, p = some q ∧ q.kind = .callExpression) ∧
    (getReferenceKind p = .importRef ↔ ∃ q, p = some q ∧ q.kind = .importSpecifier) ∧
    (getReferenceKind p = .writeRef ↔ ∃ q, p = some q ∧ q.kind = .binaryExpression "=") ∧
    (∀ oracle ident, (referencesFor oracle ident).map (·.kind) =
      ((oracle ident.data.text).flatMap id).map (fun re => amendedReferenceKind re.refParent)) := by
  refine ⟨getReferenceKind_eq_amended p, ?_, ?_, ?_, ?_⟩
  · rw [getReferenceKind_eq_amended p]
    match p with
    | none => simp [amendedReferenceKind]
    | some (.node k d m cs) =>
      cases k <;> simp [amendedReferenceKind, TsNode.kind] <;> try (split <;> simp_all)
  · rw [getReferenceKind_eq_amended p]
    match p with
    | none => simp [amendedReferenceKind]
    | some (.node k d m cs) =>
      cases k <;> simp [amendedReferenceKind, TsNode.kind] <;> try (split <;> simp_all)
  · rw [getReferenceKind_eq_amended p]
    match p with
    | none => simp [amendedReferenceKind]
    | some (.node k d m cs) =>
      cases k <;> simp [amendedReferenceKind, TsNode.kind] <;> try (split <;> simp_all)
  · intro oracle ident
    simp only [referencesFor, List.map_map]
    apply List.map_congr_left
    intro re _
    simp only [Function.comp]
    exact getReferenceKind_eq_amended re.refParent


/-- A property declaration with the `private` modifier and plain name
`v`: not filtered, since the filter is name-based. -/
def c6PropNode : TsNode :=
  .node .propertyDeclaration { symbolName := some "v", typeText := "number" } [.privateMod] []

/-- A variable declaration whose symbol name starts with `_`. -/
def c6UnderscoreNode : TsNode :=
  .node .variableDeclaration { symbolName := some "_x" } [] []

/-- C6: with `includePrivate = false`, `extractSymbolInfo` never returns
a record whose name starts with an underscore; with
`includePrivate = true` it can; the filter is purely the leading
underscore naming heuristic — a `private`-modifier member with a plain
name passes the filter, and an underscore-named symbol without any
`private` modifier is filtered. -/
theorem extractSymbolInfo_underscore_filter (n : TsNode) (info : SymbolInfo) :
    (extractSymbolInfo n false = some info → strStartsWith info.name "_" = false) ∧
    (∃ m r, extractSymbolInfo m true = some r ∧ strStartsWith r.name "_" = true) ∧
    (∃ m r, m.hasModifier .privateMod = true ∧ extractSymbolInfo m false = some r) ∧
    (∃ m, m.hasModifier .privateMod = false ∧ m.data.symbolName.isSome = true ∧
      extractSymbolInfo m false = none) := by
  refine ⟨?_, ⟨c6UnderscoreNode, _, by rfl, by decide⟩,
    ⟨c6PropNode, _, by decide, by rfl⟩,
    ⟨c6UnderscoreNode, by decide, by decide, by rfl⟩⟩
  intro h
  unfold extractSymbolInfo at h
  split at h
  · exact absurd h (by simp)
  · split at h
    · exact absurd h (by simp)
    · rename_i name _ hcond
      cases h
      simpa using hcond

/-- C6 witness: the private-modifier property `v` at concrete input. -/
theorem extractSymbolInfo_underscore_filter_witness :
    strStartsWith ((extractSymbolInfo c6PropNode false).getD
      { name := "", kind := .variableKind, type := "", documentation := none,
        modifiers := none, location := nodeToLocation c6PropNode,
        relationships := none }).name "_" = false :=
  (extractSymbolInfo_underscore_filter c6PropNode _).1 (by rfl)

/-- The property `private v = 0;` of the C3 scenario class. -/
def c3Prop : TsNode :=
  .node .propertyDeclaration
    { symbolName := some "v", ownName := some "v", typeText := "number" } [.privateMod]
    [.node .numericLiteral { text := "0" } [] []]

/-- The method `m(){ return this.v; }` of the C3 scenario class. -/
def c3Method : TsNode :=
  .node .methodDeclaration
    { symbolName := some "m", ownName := some "m", typeText := "() => number" } []
    [.node .block {} []
      [.node .returnStatement {} []
        [.node .propertyAccessExpression { text := "this.v" } []
          [.node .thisKeyword {} [] [],
           .node .identifier { symbolName := some "v", text := "v" } [] []]]]]

/-- The class `class C { private v = 0; m(){ return this.v; } }`. -/
def c3Class : TsNode :=
  .node .classDeclaration
    { symbolName := some "C", ownName := some "C", typeText := "typeof C" } []
    [c3Prop, c3Method]

/-- The C3 scenario source file. -/
def c3File : TsNode :=
  .node .sourceFileKind { filePath := "/work/c3.ts" } [] [c3Class]

/-- A trivial type graph (no base types). -/
def emptyTypeGraph : TypeGraph :=
  { symbolNameOf := fun _ => none, declsOf := fun _ => [], baseTypesOf := fun _ => [] }

/-- Project environment holding the C3 scenario file. -/
def c3Env : ProjectEnv :=
  { cwd := ["work"]
    files := [(["work", "c3.ts"], c3File)]
    projectFiles := []
    refsOracle := fun _ => []
    typeGraph := emptyTypeGraph }

/-- Source `analyze_file` parameters of the C3 scenario (`analysisType=all`,
defaults otherwise). -/
def c3Params : AnalyzeFileParams :=
  { filePath := { isAbsolute := false, segs := ["c3.ts"] }, analysisType := .allT }

/-- The result `analyze_file` actually returns on the C3 scenario. -/
def c3Expected : AnalyzeFileResult :=
  { summary := { totalSymbols := 3, complexity := 1, dependencies := [] }
    symbols := none
    diagnostics := none
    fileSize := 0 }

/-- C3 counterexample: on `class C { private v = 0; m(){ return this.v; } }`
with `analysisType=all` and default `includePrivate=false`, `analyze_file`
reports 3 symbols (the `private` modifier does not exclude `v`) and
complexity 1 — refuting "exactly 2 symbols and complexity ≥ 2". -/
theorem analyzeFile_c3_scenario_refuted :
    (analyzeFileTool c3Env c3Params).1 = .ok c3Expected ∧
    ¬ (c3Expected.summary.totalSymbols = 2 ∧ 2 ≤ c3Expected.summary.complexity) := by
  exact ⟨by rfl, by decide⟩

/-- C3 (amended): on the scenario file, `analyze_file` with
`analysisType=all` and default parameters returns exactly 3 symbols — the
class, the property `v` and the method (the leading-underscore privacy
heuristic does not exclude the `private`-modifier property) — and
complexity exactly 1 (the sum of the methods' cyclomatic complexities;
the class itself contributes none). -/
theorem analyzeFile_c3_scenario_actual :
    (analyzeFileTool c3Env c3Params).1 = .ok c3Expected ∧
    c3Expected.summary.totalSymbols = 3 ∧
    c3Expected.summary.complexity = 1 ∧
    (analyzeSourceFile c3File .allT 2 false).symbols.map (·.name) = ["C", "v", "m"] ∧
    (∃ s ∈ (analyzeSourceFile c3File .allT 2 false).symbols,
      s.name = "v" ∧ s.modifiers = some ["private"]) ∧
    getNodeComplexity c3Method = 1 := by
  refine ⟨by rfl, by decide, by decide, by rfl, ?_, by rfl⟩
  refine ⟨(extractSymbolInfo c3Prop false).getD
    { name := "", kind := .variableKind, type := "", documentation := none,
      modifiers := none, location := nodeToLocation c3Prop, relationships := none }, ?_, ?_, ?_⟩
  · show _ ∈ (analyzeSourceFile c3File .allT 2 false).symbols
    exact List.Mem.tail _ (List.Mem.head _)
  · rfl
  · rfl

/-- Traversal invariant of `processType`: the hierarchy's names are
pairwise distinct, and every one of them is in the visited set. -/
def hierarchyInv (st : TravState) : Prop :=
  (st.hierarchy.map (·.name)).Nodup ∧
  ∀ nm ∈ st.hierarchy.map (·.name), nm ∈ st.visited

theorem processType_preserves_inv (g : TypeGraph) (dir : HierarchyDirection) :
    ∀ fuel tid st, hierarchyInv st → hierarchyInv (processType g dir fuel tid st) := by
  intro fuel
  induction fuel with
  | zero =>
    intro tid st h
    simpa [processType] using h
  | succ fuel ih =>
    have hfold : ∀ (l : List Nat) (st : TravState), hierarchyInv st →
        hierarchyInv (l.foldl (fun s b => processType g dir fuel b s) st) := by
      intro l
      induction l with
      | nil => intro st h; simpa using h
      | cons b bs ihl =>
        intro st h
        simpa using ihl _ (ih b st h)
    intro tid st h
    show hierarchyInv (processType g dir (fuel + 1) tid st)
    rw [processType]
    split
    · exact h
    · rename_i name _
      split
      · exact h
      · rename_i hv
        have hv' : name ∉ st.visited := fun hmem => hv (List.elem_iff.mpr hmem)
        split
        · exact ⟨h.1, fun nm hnm => List.mem_cons_of_mem _ (h.2 nm hnm)⟩
        · rename_i decl rest _
          have hnotmem : name ∉ st.hierarchy.map (·.name) := by
            intro hmem
            exact hv' (h.2 name hmem)
          have hinv₂ : hierarchyInv
              { visited := name :: st.visited
                hierarchy := st.hierarchy ++
                  [{ name := name, kind := getTypeKind decl.declKind,
                     location := decl.location, generics := getGenericParameters decl }] } := by
            constructor
            · simpa [List.nodup_append, hnotmem] using h.1
            · intro nm hnm
              simp only [List.map_append, List.mem_append, List.map_cons, List.map_nil,
                List.mem_singleton] at hnm
              rcases hnm with hnm | hnm
              · exact List.mem_cons_of_mem _ (h.2 nm hnm)
              · simp [hnm]
          split
          · exact hfold (g.baseTypesOf tid) _ hinv₂
          · exact hinv₂

/-- Location used by the cyclic C10 example graph. -/
def c10Loc : TsLocation :=
  { file := "/work/t.ts", position := { line := 0, character := 0 }
    endPosition := { line := 0, character := 0 } }

/-- A cyclic type graph: type 0 (`A`) has base type 1 (`B`), which has
base type 0 again. -/
def c10Graph : TypeGraph :=
  { symbolNameOf := fun t => if t = 0 then some "A" else if t = 1 then some "B" else none
    declsOf := fun nm =>
      if nm = "A" ∨ nm = "B" then
        [{ declKind := .classDeclaration, location := c10Loc, typeParams := [] }]
      else []
    baseTypesOf := fun t => if t = 0 then [1] else if t = 1 then [0] else [] }

/-- A node whose type is type 0 of `c10Graph`. -/
def c10Node : TsNode := .node .classDeclaration { typeId := 0 } [] []

/-- C10: `getTypeHierarchy` is total (the depth bound is the recursion's
fuel, and the visited-name set stops revisits), every type name appears
at most once in the returned hierarchy, and on the concrete cyclic graph
`A ⇄ B` the ancestor traversal returns exactly `[A, B]` — and respects
the depth bound (`maxDepth = 0` yields only `A`). -/
theorem getTypeHierarchy_terminates_names_nodup :
    (∀ (g : TypeGraph) (n : TsNode) (dir : HierarchyDirection) (maxDepth : Nat),
      ((getTypeHierarchy g n dir maxDepth).map (·.name)).Nodup) ∧
    ((getTypeHierarchy c10Graph c10Node .ancestorsDir 5).map (·.name) = ["A", "B"]) ∧
    ((getTypeHierarchy c10Graph c10Node .ancestorsDir 0).map (·.name) = ["A"]) := by
  refine ⟨?_, by rfl, by rfl⟩
  intro g n dir maxDepth
  have h := processType_preserves_inv g dir (maxDepth + 1) n.data.typeId
    { visited := [], hierarchy := [] } ⟨List.nodup_nil, by simp⟩
  exact h.1

theorem storeGet_storeSet (store : List (String × AnalysisResultEntry)) (k : String)
    (v : AnalysisResultEntry) : storeGet (storeSet store k v) k = some v := by
  simp [storeGet, storeSet]

theorem storeGet_storeRemove (store : List (String × AnalysisResultEntry)) (k : String) :
    storeGet (storeRemove store k) k = none := by
  have hfind : (storeRemove store k).find? (fun e => e.1 = k) = none := by
    rw [List.find?_eq_none]
    intro e he
    rw [storeRemove] at he
    have := (List.mem_filter.mp he).2
    simpa using this
  simp [storeGet, hfind]

/-- C7: storing an analysis result and reading it back before the
time-to-live has elapsed returns the stored data unchanged, leaving the
store untouched; reading it after the time-to-live has elapsed returns
absent and removes the entry from storage. -/
theorem cache_ttl_roundtrip (s : CacheState) (key dataStr : String) (t₀ t₁ : Nat) :
    (t₁ - t₀ < s.ttl →
      getCachedAnalysis (setCachedAnalysis s t₀ key dataStr) t₁ key =
        (some dataStr, setCachedAnalysis s t₀ key dataStr)) ∧
    (s.ttl < t₁ - t₀ →
      (getCachedAnalysis (setCachedAnalysis s t₀ key dataStr) t₁ key).1 = none ∧
      storeGet ((getCachedAnalysis (setCachedAnalysis s t₀ key dataStr) t₁ key).2).analysisStore
        key = none) := by
  have hget : storeGet (setCachedAnalysis s t₀ key dataStr).analysisStore key =
      some { resultData := dataStr, timestamp := t₀ } := by
    simp [setCachedAnalysis, storeGet_storeSet]
  constructor
  · intro hlt
    rw [getCachedAnalysis, hget]
    simp only
    rw [if_neg (by simp [setCachedAnalysis] at *; omega)]
  · intro hgt
    rw [getCachedAnalysis, hget]
    simp only
    rw [if_pos (by simp [setCachedAnalysis] at *; omega)]
    refine ⟨rfl, ?_⟩
    simp [setCachedAnalysis, storeSet, storeRemove]
    have := storeGet_storeRemove ((key, { resultData := dataStr, timestamp := t₀ }) ::
      s.analysisStore.filter (fun e => ¬ e.1 = key)) key
    simpa [storeRemove] using this

/-- C7 witness: a cache with time-to-live 10ms written at t=100 — a read
at t=105 returns the data, a read at t=111 misses and deletes. -/
theorem cache_ttl_roundtrip_witness :
    getCachedAnalysis (setCachedAnalysis (mkCacheManager (some 10)) 100 "k" "blob") 105 "k" =
      (some "blob", setCachedAnalysis (mkCacheManager (some 10)) 100 "k" "blob") ∧
    (getCachedAnalysis (setCachedAnalysis (mkCacheManager (some 10)) 100 "k" "blob") 111 "k").1 =
      none ∧
    storeGet ((getCachedAnalysis (setCachedAnalysis (mkCacheManager (some 10)) 100 "k" "blob")
      111 "k").2).analysisStore "k" = none :=
  ⟨(cache_ttl_roundtrip (mkCacheManager (some 10)) "k" "blob" 100 105).1 (by decide),
   ((cache_ttl_roundtrip (mkCacheManager (some 10)) "k" "blob" 100 111).2 (by decide)).1,
   ((cache_ttl_roundtrip (mkCacheManager (some 10)) "k" "blob" 100 111).2 (by decide)).2⟩

/-- The all-empty result `detect_code_smells` returns when every file
was skipped. -/
def emptySmellsResult (cats : List SmellCategory) : DetectSmellsResult :=
  { smells := [], total := 0, byCategory := cats.map (fun cat => (cat, 0))
    bySeverityHigh := 0, bySeverityMedium := 0, bySeverityLow := 0 }

theorem underRoot_iff_dropCommon (cwd tgt : List String) :
    underRoot cwd tgt = true ↔ (dropCommonSegs cwd tgt).1 = [] := by
  induction cwd generalizing tgt with
  | nil => simp [underRoot, dropCommonSegs]
  | cons r rs ih =>
    cases tgt with
    | nil => simp [underRoot, dropCommonSegs]
    | cons q qs =>
      by_cases hrq : r = q
      · subst hrq
        simp [underRoot, dropCommonSegs, ih]
      · simp [underRoot, dropCommonSegs, hrq]

/-- The `SCOPE_ERROR` raised for a path outside the working root. -/
def scopeOutsideError (p : FsPath) : AnalysisError :=
  { code := .scopeError, message := "Path is outside allowed scope"
    detailFile := some (String.intercalate "/" p.segs) }

theorem relative_dotdot_of_outside (cwd : List String) (p : FsPath)
    (h : resolvesOutsideRoot cwd p = true) :
    relativeStartsWithDotDot (pathRelativeSegs cwd (pathNormalize p)) = true := by
  rw [resolvesOutsideRoot, Bool.not_eq_true'] at h
  rw [pathRelativeSegs]
  cases hc : (dropCommonSegs cwd (resolveAbs cwd (pathNormalize p))).1 with
  | nil =>
    exact absurd ((underRoot_iff_dropCommon cwd
      (resolveAbs cwd (pathNormalize p))).mpr hc) (by simp [h])
  | cons r rs =>
    simp only [hc, List.length_cons, List.replicate_succ, List.cons_append]
    rfl

theorem validatePath_outside (cwd : List String) (p : FsPath)
    (h : resolvesOutsideRoot cwd p = true) :
    validatePath cwd p = .error (scopeOutsideError p) := by
  rw [validatePath]
  rw [if_pos (relative_dotdot_of_outside cwd p h)]
  rfl

/-- Whether an `Except` outcome is a success. -/
def exceptIsOk {α : Type} : Except AnalysisError α → Bool
  | .ok _ => true
  | .error _ => false

/-- C5 (amended): a path resolving outside the working root makes
`analyze_file`, `get_symbol_info`, `find_references` and
`extract_context` fail with the `ScopeError` thrown by `validatePath`,
with no file read attempted; `detect_code_smells` also raises the
`ScopeError` before any read — no read is attempted — but its per-file
try/catch swallows the error, so the tool itself completes successfully
with an empty smell list. -/
theorem fileScoped_tools_scope_error_before_read (env : ProjectEnv) (p : FsPath)
    (h : resolvesOutsideRoot env.cwd p = true) :
    (∀ params : AnalyzeFileParams, params.filePath = p →
      analyzeFileTool env params = (.error (scopeOutsideError p), [])) ∧
    (∀ params : GetSymbolInfoParams, params.filePath = p →
      getSymbolInfoTool env params = (.error (scopeOutsideError p), [])) ∧
    (∀ params : FindReferencesParams, params.filePath = p →
      findReferencesTool env params = (.error (scopeOutsideError p), [])) ∧
    (∀ params : ExtractContextParams, params.filePath = p →
      extractContextTool env params = (.error (scopeOutsideError p), [])) ∧
    (∀ params : DetectSmellsParams, params.filePath = some p →
      (detectCodeSmellsTool env params).2 = [] ∧
      ∃ r, (detectCodeSmellsTool env params).1 = .ok r ∧ r.smells = [] ∧ r.total = 0) := by
  have hval := validatePath_outside env.cwd p h
  refine ⟨?_, ?_, ?_, ?_, ?_⟩
  · intro params hp
    rw [analyzeFileTool, hp, hval]
  · intro params hp
    rw [getSymbolInfoTool, hp, hval]
  · intro params hp
    rw [findReferencesTool, hp, hval]
  · intro params hp
    rw [extractContextTool, hp, hval]
  · intro params hp
    have hfile : detectSmellsForFile env (params.categories.getD allSmellCategories)
        params.threshold p = ([], []) := by
      rw [detectSmellsForFile, hval]
    constructor
    · simp [detectCodeSmellsTool, hp, hfile]
    · refine ⟨emptySmellsResult (params.categories.getD allSmellCategories), ?_, rfl, rfl⟩
      simp [detectCodeSmellsTool, hp, hfile, emptySmellsResult]

/-- The scenario path `"../outside/file.ts"`. -/
def c5OutsidePath : FsPath := { isAbsolute := false, segs := ["..", "outside", "file.ts"] }

/-- Environment for the C5 scenario: working directory `/work` with one
parseable file in it. -/
def c5Env : ProjectEnv :=
  { cwd := ["work"]
    files := [(["work", "a.ts"], .node .sourceFileKind { filePath := "/work/a.ts" } [] [])]
    projectFiles := [{ isAbsolute := false, segs := ["a.ts"] }]
    refsOracle := fun _ => []
    typeGraph := emptyTypeGraph }

theorem fileScoped_tools_scope_error_before_read_witness :
    analyzeFileTool c5Env { filePath := c5OutsidePath, analysisType := .allT } =
      (.error (scopeOutsideError c5OutsidePath), []) ∧
    getSymbolInfoTool c5Env
      { filePath := c5OutsidePath, position := { line := 0, character := 0 } } =
      (.error (scopeOutsideError c5OutsidePath), []) ∧
    findReferencesTool c5Env
      { filePath := c5OutsidePath, position := { line := 0, character := 0 } } =
      (.error (scopeOutsideError c5OutsidePath), []) ∧
    extractContextTool c5Env { filePath := c5OutsidePath, contextType := .moduleCtx } =
      (.error (scopeOutsideError c5OutsidePath), []) ∧
    (detectCodeSmellsTool c5Env { filePath := some c5OutsidePath }).2 = [] :=
  ⟨(fileScoped_tools_scope_error_before_read c5Env c5OutsidePath (by decide)).1 _ rfl,
   (fileScoped_tools_scope_error_before_read c5Env c5OutsidePath (by decide)).2.1 _ rfl,
   (fileScoped_tools_scope_error_before_read c5Env c5OutsidePath (by decide)).2.2.1 _ rfl,
   (fileScoped_tools_scope_error_before_read c5Env c5OutsidePath (by decide)).2.2.2.1 _ rfl,
   ((fileScoped_tools_scope_error_before_read c5Env c5OutsidePath (by decide)).2.2.2.2 _
     rfl).1⟩

/-- C5 counterexample: on `"../outside/file.ts"`, `detect_code_smells`
does *not* fail — the `ScopeError` is raised before any read (the read
list is empty) but caught by the per-file try/catch, and the tool
returns a successful empty result, unlike `analyze_file` on the same
path. -/
theorem detectCodeSmells_swallows_scope_error :
    exceptIsOk (detectCodeSmellsTool c5Env { filePath := some c5OutsidePath }).1 = true ∧
    (detectCodeSmellsTool c5Env { filePath := some c5OutsidePath }).2 = [] ∧
    exceptIsOk (analyzeFileTool c5Env
      { filePath := c5OutsidePath, analysisType := .allT }).1 = false := by
  exact ⟨by rfl, by rfl, by rfl⟩

theorem jsValue_sizeOf_pos (v : JsValue) : 0 < sizeOf v := by
  cases v <;> simp_arith

theorem lookupPair_sizeOf : ∀ (f : List (String × JsValue)) (k : String) (w : JsValue),
    lookupPair f k = some w → sizeOf w < sizeOf (JsValue.vobj f) := by
  intro f k w h
  induction f with
  | nil => simp [lookupPair] at h
  | cons p rest ih =>
    match p with
    | (k', v) =>
      rw [lookupPair] at h
      by_cases hk : k' = k
      · rw [if_pos hk] at h
        cases h
        simp_arith
      · rw [if_neg hk] at h
        have := ih h
        simp_arith at this ⊢
        omega

theorem lookupFirst_stringifyFields (allow : List String) :
    ∀ (g : List (String × JsValue)) (k : String),
    lookupFirst (stringifyFields allow g) k = (lookupPair g k).map (stringifyJs allow) := by
  intro g k
  induction g with
  | nil => rfl
  | cons p rest ih =>
    match p with
    | (k', v) =>
      by_cases hk : k' = k <;>
        simp [stringifyFields, lookupFirst, lookupPair, hk, ih]

theorem lookupPair_canonFields : ∀ (g : List (String × JsValue)) (k : String),
    lookupPair (canonFields g) k = (lookupPair g k).map canonV := by
  intro g k
  induction g with
  | nil => rfl
  | cons p rest ih =>
    match p with
    | (k', v) =>
      by_cases hk : k' = k <;> simp [canonFields, lookupPair, hk, ih]

theorem keysF_canonFields (g : List (String × JsValue)) :
    keysF (canonFields g) = keysF g := by
  induction g with
  | nil => rfl
  | cons p rest ih =>
    match p with
    | (k', v) => simp [canonFields, keysF] at ih ⊢; exact ih

theorem keysF_orderedInsert (p : String × JsValue) :
    ∀ (g : List (String × JsValue)),
    keysF (List.orderedInsert (fun a b => strLeB a.1 b.1 = true) p g) =
      List.orderedInsert (fun a b => strLeB a b = true) p.1 (keysF g) := by
  intro g
  induction g with
  | nil => rfl
  | cons q rest ih =>
    by_cases hle : strLeB p.1 q.1 = true
    · simp [List.orderedInsert, keysF, hle]
    · simp [List.orderedInsert, keysF, hle]
      simpa [keysF] using ih

theorem keysF_sortPairs (g : List (String × JsValue)) :
    keysF (sortPairs g) = sortKeys (keysF g) := by
  induction g with
  | nil => rfl
  | cons p rest ih =>
    simp only [sortPairs, List.insertionSort] at *
    rw [keysF_orderedInsert, ih]
    rfl

theorem lookupPair_perm : ∀ {g₁ g₂ : List (String × JsValue)}, g₁.Perm g₂ →
    (keysF g₁).Nodup → ∀ k, lookupPair g₁ k = lookupPair g₂ k := by
  intro g₁ g₂ h
  induction h with
  | nil => intro _ _; rfl
  | cons x h ih =>
    intro hnd k
    have hnd' : (keysF _).Nodup := (by simpa [keysF] using hnd : _ ∧ _).2
    by_cases hk : x.1 = k <;> simp [lookupPair, hk, ih hnd' k]
  | swap x y l =>
    intro hnd k
    have hxy : y.1 ≠ x.1 := by
      simp [keysF, List.nodup_cons] at hnd
      exact hnd.1.1
    by_cases hky : y.1 = k <;> by_cases hkx : x.1 = k
    · exact absurd (hky.trans hkx.symm) hxy
    · simp [lookupPair, hky, hkx]
    · simp [lookupPair, hky, hkx]
    · simp [lookupPair, hky, hkx]
  | trans h₁ h₂ ih₁ ih₂ =>
    intro hnd k
    have hp := h₁.map (fun x : String × JsValue => x.1)
    have hnd₂ := hp.nodup_iff.mp (by simpa [keysF] using hnd)
    rw [ih₁ hnd k, ih₂ (by simpa [keysF] using hnd₂) k]

theorem wfKeysF_lookup : ∀ (g : List (String × JsValue)) (k : String) (w : JsValue),
    wfKeysF g = true → lookupPair g k = some w → wfKeysV w = true := by
  intro g k w hwf h
  induction g with
  | nil => simp [lookupPair] at h
  | cons p rest ih =>
    match p with
    | (k', v) =>
      rw [wfKeysF, Bool.and_eq_true] at hwf
      rw [lookupPair] at h
      by_cases hk : k' = k
      · rw [if_pos hk] at h; cases h; exact hwf.1
      · rw [if_neg hk] at h; exact ih hwf.2 h

theorem nodupKeysB_iff (l : List String) : nodupKeysB l = true ↔ l.Nodup := by
  induction l with
  | nil => simp [nodupKeysB]
  | cons k rest ih =>
    simp [nodupKeysB, List.nodup_cons, ih, List.elem_iff]

theorem memberStrings_congr (allow : List String)
    (a₁ a₂ : List (String × Option String))
    (h : ∀ k, lookupFirst a₁ k = lookupFirst a₂ k) :
    memberStrings allow a₁ = memberStrings allow a₂ := by
  induction allow with
  | nil => rfl
  | cons k ks ih =>
    simp only [memberStrings, List.filterMap_cons] at ih ⊢
    rw [h k, ih]

theorem stringify_canon_aux : ∀ (n : Nat) (v : JsValue), sizeOf v ≤ n →
    wfKeysV v = true → ∀ allow, stringifyJs allow v = stringifyJs allow (canonV v) := by
  intro n
  induction n with
  | zero =>
    intro v hv
    exact absurd hv (by have := jsValue_sizeOf_pos v; omega)
  | succ n ih =>
    intro v hsize hwf allow
    match v with
    | .vnull => rfl
    | .vundef => rfl
    | .vbool b => rfl
    | .vnum m => rfl
    | .vstr s => rfl
    | .vobj fields =>
      rw [wfKeysV, Bool.and_eq_true] at hwf
      have hnd : (keysF fields).Nodup := (nodupKeysB_iff _).mp hwf.1
      rw [canonV]
      simp only [stringifyJs]
      have hm : memberStrings allow (stringifyFields allow fields) =
          memberStrings allow (stringifyFields allow (sortPairs (canonFields fields))) := by
        apply memberStrings_congr
        intro k
        rw [lookupFirst_stringifyFields, lookupFirst_stringifyFields]
        have hperm : (sortPairs (canonFields fields)).Perm (canonFields fields) :=
          List.perm_insertionSort _ _
        have hnd2 : (keysF (sortPairs (canonFields fields))).Nodup := by
          rw [keysF_sortPairs, keysF_canonFields]
          exact (List.perm_insertionSort _ _).nodup_iff.mpr hnd
        rw [lookupPair_perm hperm hnd2 k, lookupPair_canonFields]
        cases hlk : lookupPair fields k with
        | none => rfl
        | some w =>
          have hwsize : sizeOf w ≤ n := by
            have h1 := lookupPair_sizeOf fields k w hlk
            simp_arith at hsize
            simp_arith at h1
            omega
          have hwwf : wfKeysV w = true := wfKeysF_lookup fields k w hwf.2 hlk
          show some (stringifyJs allow w) = some (stringifyJs allow (canonV w))
          rw [ih w hwsize hwwf allow]
      rw [hm]

theorem stringifyJs_canon (v : JsValue) (hwf : wfKeysV v = true) (allow : List String) :
    stringifyJs allow v = stringifyJs allow (canonV v) :=
  stringify_canon_aux (sizeOf v) v le_rfl hwf allow

theorem normalizeCacheParam_eq_of_canon (v₁ v₂ : JsValue) (h₁ : wfKeysV v₁ = true)
    (h₂ : wfKeysV v₂ = true) (hc : canonV v₁ = canonV v₂) :
    normalizeCacheParam v₁ = normalizeCacheParam v₂ := by
  cases v₁ with
  | vnull => cases v₂ <;> simp [canonV] at hc <;> rfl
  | vundef => cases v₂ <;> simp [canonV] at hc <;> rfl
  | vbool b => cases v₂ <;> simp [canonV] at hc <;> rw [hc]
  | vnum m => cases v₂ <;> simp [canonV] at hc <;> rw [hc]
  | vstr s => cases v₂ <;> simp [canonV] at hc <;> rw [hc]
  | vobj f₁ =>
    cases v₂ with
    | vobj f₂ =>
      simp only [canonV, JsValue.vobj.injEq] at hc
      have hkeys : sortKeys (keysF f₁) = sortKeys (keysF f₂) := by
        rw [← keysF_canonFields f₁, ← keysF_canonFields f₂,
          ← keysF_sortPairs, ← keysF_sortPairs, hc]
      have hallow : (f₁.map (·.1)) = keysF f₁ := rfl
      show (stringifyJs (sortKeys (f₁.map (·.1))) (.vobj f₁)).getD "null" =
        (stringifyJs (sortKeys (f₂.map (·.1))) (.vobj f₂)).getD "null"
      rw [show (f₁.map (·.1)) = keysF f₁ from rfl, show (f₂.map (·.1)) = keysF f₂ from rfl]
      rw [stringifyJs_canon _ h₁, stringifyJs_canon _ h₂]
      rw [hkeys]
      rw [show canonV (.vobj f₁) = canonV (.vobj f₂) by simp [canonV, hc]]
    | vnull => simp [canonV] at hc
    | vundef => simp [canonV] at hc
    | vbool b => simp [canonV] at hc
    | vnum m => simp [canonV] at hc
    | vstr s => simp [canonV] at hc

/-- C8: `generateCacheKey` returns the same key for two parameter lists
that are equal except for the insertion order of keys inside
object-valued parameters (pointwise: well-formed values with the same
canonical key-sorted form). -/
theorem generateCacheKey_key_order_independent (parts₁ parts₂ : List JsValue)
    (h : List.Forall₂ (fun a b => wfKeysV a = true ∧ wfKeysV b = true ∧ canonV a = canonV b)
      parts₁ parts₂) :
    generateCacheKey parts₁ = generateCacheKey parts₂ := by
  rw [generateCacheKey, generateCacheKey]
  congr 1
  congr 1
  induction h with
  | nil => rfl
  | cons hab hrest ih =>
    simp only [List.map_cons, ih]
    rw [normalizeCacheParam_eq_of_canon _ _ hab.1 hab.2.1 hab.2.2]

/-- An object with keys inserted as `b, a`. -/
def c8ParamBA : JsValue := .vobj [("b", .vnum 1), ("a", .vobj [("y", .vnum 2), ("x", .vnum 3)])]

/-- The same object with keys inserted as `a, b` (and the nested object's
keys also reversed). -/
def c8ParamAB : JsValue := .vobj [("a", .vobj [("x", .vnum 3), ("y", .vnum 2)]), ("b", .vnum 1)]

/-- C8 witness: reordering top-level and nested keys leaves the cache key
unchanged. -/
theorem generateCacheKey_key_order_independent_witness :
    generateCacheKey [.vstr "analyze", c8ParamBA] =
      generateCacheKey [.vstr "analyze", c8ParamAB] :=
  generateCacheKey_key_order_independent _ _
    (.cons ⟨by rfl, by rfl, rfl⟩ (.cons ⟨by rfl, by rfl, by rfl⟩ .nil))

/-- Parameter object `{ filePath: "a.ts", options: { depth: 1 } }`. -/
def c9ParamA : JsValue :=
  .vobj [("filePath", .vstr "a.ts"), ("options", .vobj [("depth", .vnum 1)])]

/-- Parameter object `{ filePath: "a.ts", options: { depth: 2 } }` —
identical except for the nested `depth` value. -/
def c9ParamB : JsValue :=
  .vobj [("filePath", .vstr "a.ts"), ("options", .vobj [("depth", .vnum 2)])]

/-- A memoized analysis function that genuinely depends on the nested
`depth` option. -/
def c9Analysis : List JsValue → String
  | [.vobj [_, (_, .vobj [(_, .vnum d)])]] =>
    if d = 1 then "analysis of A" else "analysis of B"
  | _ => "other"

/-- C9: the replacer array `JSON.stringify(part, Object.keys(part).sort())`
holds only the object's top-level keys, so the nested property `depth`
(not itself a top-level key) is dropped from the serialized form — both
objects normalize to `{"filePath":"a.ts","options":{}}` — hence two
distinct parameter lists get the same cache key, and a memoized call with
the second parameter is served the first call's cached result instead of
its own. -/
theorem generateCacheKey_nested_property_collision :
    c9ParamA ≠ c9ParamB ∧
    normalizeCacheParam c9ParamA = "\x7b\"filePath\":\"a.ts\",\"options\":\x7b\x7d\x7d" ∧
    normalizeCacheParam c9ParamA = normalizeCacheParam c9ParamB ∧
    generateCacheKey [c9ParamA] = generateCacheKey [c9ParamB] ∧
    c9Analysis [c9ParamA] = "analysis of A" ∧
    c9Analysis [c9ParamB] = "analysis of B" ∧
    (memoizeCall c9Analysis (mkCacheManager none) 0 [c9ParamA]).1 = "analysis of A" ∧
    (memoizeCall c9Analysis
      (memoizeCall c9Analysis (mkCacheManager none) 0 [c9ParamA]).2 1 [c9ParamB]).1 =
      "analysis of A" := by
  refine ⟨?_, by rfl, by rfl, by rfl, by rfl, by rfl, by rfl, by rfl⟩
  intro h
  simp [c9ParamA, c9ParamB] at h
